import Mathlib

/-!
# KubeAdmiral multi-cluster service aggregation: embedding and properties

Shallow embedding of

* `pkg/util/aggregatedlister/service.go` (the aggregated service lister),
* `pkg/registry/hpaaggregator/aggregation/forward/service.go` (the REST adapter and the
  watch fan-in), and
* `pkg/controllers/federate/util.go` (the classification of annotations and labels),

followed by the properties proved about them.

Conventions of the embedding.

* A Go result pair `(value, error)` is an `Except Err value`.
* The registry (`informermanager.FederatedInformerManager`) is an interface whose
  implementation lives outside the embedded files; a registry state is a value of the
  structure `FederatedInformerManager` below, holding what each method returns in that state.
* The identity codec (`clusterobject.MakeObjectUnique`, `GenUniqueName`,
  `GetPossibleClusters`) is not part of the embedded files; it is a parameter (`Codec`).
* Every lister operation also returns the sequence of registry calls it made
  (`RegistryCall`), so that "without querying the registry" is a statement about a value.
* On values `DeepCopy` is the identity. What happens to the cached objects themselves is
  stated on a second embedding of the listers, over a store of objects (`InStore`), where a
  lister returns addresses, `DeepCopy` allocates and `MakeObjectUnique` rewrites in place.
* The keys of annotations and labels are constants of other packages; they are a parameter
  (`Keys`).
-/

namespace KubeAdmiral

/-! ## Data model -/

/-- The part of `corev1.Service` the aggregation layer reads or rewrites: the object's
namespace and name, its labels, and the rest of the object as an uninterpreted payload. -/
structure Service where
  Namespace : String
  Name : String
  Labels : List (String × String)
  Payload : String
  deriving DecidableEq, Repr

/-- A `runtime.Object`: either a `*corev1.Service` or an object of another type. -/
inductive Object where
  | service (svc : Service)
  | other (kind : String) (payload : String)
  deriving DecidableEq, Repr

/-- Go slice `[]string`. -/
abbrev StringSlice := List String

/-- Go slice `[]*corev1.Service`. -/
abbrev ServiceSlice := List Service

/-- Go slice `[]runtime.Object`. -/
abbrev ObjectSlice := List Object

/-- Go `error` values that occur in the embedded files: the typed API errors built by
`apierrors.NewNotFound` and `apierrors.NewBadRequest`, errors wrapped by
`fmt.Errorf("<context>: %w", err)`, and any other error value. -/
inductive Err where
  | NotFound (resource : String) (name : String)
  | BadRequest (message : String)
  | Wrapped (context : String) (err : Err)
  | Other (message : String)
  deriving DecidableEq, Repr

/-- The function `apierrors.IsNotFound`: the reason of an error is looked up through
`errors.As`, which unwraps `%w` wrappers. -/
def Err.IsNotFound : Err → Bool
  | .NotFound _ _ => true
  | .BadRequest _ => false
  | .Wrapped _ err => err.IsNotFound
  | .Other _ => false

/-- The function `apierrors.IsBadRequest`. -/
def Err.IsBadRequest : Err → Bool
  | .NotFound _ _ => false
  | .BadRequest _ => true
  | .Wrapped _ err => err.IsBadRequest
  | .Other _ => false

/-- A `labels.Selector`, as its list of requirements. -/
structure Selector where
  requirements : List String
  deriving DecidableEq, Repr

/-- The selector `labels.Everything()`: no requirement. -/
def labels_Everything : Selector := ⟨[]⟩

/-- A `fields.Selector`, as its list of requirements. -/
structure FieldSelector where
  requirements : List String
  deriving DecidableEq, Repr

/-- The selector `fields.Everything()`. -/
def fields_Everything : FieldSelector := ⟨[]⟩

/-- The part of `fedcorev1a1.FederatedCluster` that is read: the cluster's name. -/
structure FederatedCluster where
  Name : String
  deriving DecidableEq, Repr

/-- Go slice `[]*fedcorev1a1.FederatedCluster`. -/
abbrev ClusterSlice := List FederatedCluster

/-- A per-cluster `corev1listers.ServiceLister`: what `List(selector)` and
`Services(namespace).List(selector)` return in the current cache state. -/
structure CoreServiceLister where
  Services : String → Selector → Except Err ServiceSlice
  List : Selector → Except Err ServiceSlice

/-- The `interface{}` returned as lister by `GetResourceListerFromFactory`: a value whose
dynamic type is `corev1listers.ServiceLister`, or a value of another type. -/
inductive ResourceLister where
  | serviceLister (l : CoreServiceLister)
  | otherLister

/-- The options `metav1.ListOptions` passed to a member cluster's watch call. -/
structure WatchOptions where
  LabelSelector : String
  FieldSelector : String
  TimeoutSeconds : Option Int
  deriving DecidableEq, Repr

/-- A member cluster's client, as far as it is used: whether
`client.CoreV1().Services(namespace).Watch(ctx, opts)` returns a watcher or an error. -/
structure KubeClient where
  WatchServices : String → WatchOptions → Except Err Unit

/-- A registry state. `GetReadyClusters` is what that method returns;
`GetResourceListerFromFactory cluster` is the result of
`GetResourceListerFromFactory(common.ServiceGVR, cluster)`: `none` when `exists` is false,
otherwise the lister together with the value of `servicesSynced()`;
`GetClusterKubeClient cluster` is `none` when the client does not exist. -/
structure FederatedInformerManager where
  GetReadyClusters : Except Err ClusterSlice
  GetResourceListerFromFactory : String → Option (ResourceLister × Bool)
  GetClusterKubeClient : String → Option KubeClient

/-- The functions of package `clusterobject` used by the listers and by the watch, and Go's
`%q` formatting verb. -/
structure Codec where
  MakeObjectUnique : Service → String → Service
  GenUniqueName : String → String → String
  GetPossibleClusters : ClusterSlice → String → StringSlice
  Quote : String → String

/-- A call made on the registry. -/
inductive RegistryCall where
  | GetReadyClusters
  | GetResourceListerFromFactory (cluster : String)
  deriving DecidableEq, Repr

/-- The registry calls made by an operation, in order. -/
abbrev CallLog := List RegistryCall

/-- The result of a lister operation: the registry calls made, in order, and the Go
result pair. -/
structure Outcome (α : Type) where
  calls : CallLog
  result : Except Err α

/-! ## The aggregated lister (`pkg/util/aggregatedlister/service.go`) -/

structure ServiceLister where
  federatedInformerManager : FederatedInformerManager

structure ServiceNamespaceLister where
  namespace_ : String
  federatedInformerManager : FederatedInformerManager

/-- One iteration of the `for _, cluster := range clusters` loop of `ServiceLister.List`
(lines 58-78): `acc` holds the calls made so far and `ret`. -/
def ServiceLister.listIteration (c : Codec) (s : ServiceLister) (selector : Selector)
    (acc : CallLog × ObjectSlice) (cluster : FederatedCluster) :
    CallLog × ObjectSlice :=
  let calls := acc.1 ++ [RegistryCall.GetResourceListerFromFactory cluster.Name]
  match s.federatedInformerManager.GetResourceListerFromFactory cluster.Name with
  | none => (calls, acc.2)
  | some (serviceLister, servicesSynced) =>
    if !servicesSynced then (calls, acc.2)
    else
      match serviceLister with
      | .otherLister => (calls, acc.2)
      | .serviceLister svcLister =>
        match svcLister.List selector with
        | .error _ => (calls, acc.2)
        | .ok services =>
          (calls, services.foldl
            (fun ret service => ret ++ [Object.service (c.MakeObjectUnique service cluster.Name)])
            acc.2)

/-- The method `ServiceLister.List` (lines 53-80). -/
def ServiceLister.List (c : Codec) (s : ServiceLister) (selector : Selector) :
    Outcome ObjectSlice :=
  match s.federatedInformerManager.GetReadyClusters with
  | .error err => ⟨[RegistryCall.GetReadyClusters], .error err⟩
  | .ok clusters =>
    let final := clusters.foldl (s.listIteration c selector) ([RegistryCall.GetReadyClusters], [])
    ⟨final.1, .ok final.2⟩

/-- The method `ServiceLister.ByNamespace` (lines 90-92). -/
def ServiceLister.ByNamespace (s : ServiceLister) (namespace_ : String) : ServiceNamespaceLister :=
  { federatedInformerManager := s.federatedInformerManager, namespace_ := namespace_ }

/-- One iteration of the cluster loop of `ServiceNamespaceLister.List` (lines 99-117). -/
def ServiceNamespaceLister.listIteration (c : Codec) (s : ServiceNamespaceLister)
    (selector : Selector) (acc : CallLog × ObjectSlice) (cluster : FederatedCluster) :
    CallLog × ObjectSlice :=
  let calls := acc.1 ++ [RegistryCall.GetResourceListerFromFactory cluster.Name]
  match s.federatedInformerManager.GetResourceListerFromFactory cluster.Name with
  | none => (calls, acc.2)
  | some (serviceLister, servicesSynced) =>
    if !servicesSynced then (calls, acc.2)
    else
      match serviceLister with
      | .otherLister => (calls, acc.2)
      | .serviceLister svcLister =>
        match svcLister.Services s.namespace_ selector with
        | .error _ => (calls, acc.2)
        | .ok svcs =>
          (calls, svcs.foldl
            (fun ret svc => ret ++ [Object.service (c.MakeObjectUnique svc cluster.Name)])
            acc.2)

/-- The method `ServiceNamespaceLister.List` (lines 94-119). -/
def ServiceNamespaceLister.List (c : Codec) (s : ServiceNamespaceLister)
    (selector : Selector) : Outcome ObjectSlice :=
  match s.federatedInformerManager.GetReadyClusters with
  | .error err => ⟨[RegistryCall.GetReadyClusters], .error err⟩
  | .ok clusters =>
    let final := clusters.foldl (s.listIteration c selector) ([RegistryCall.GetReadyClusters], [])
    ⟨final.1, .ok final.2⟩

/-- The loop `for _, cluster := range clusterobject.GetPossibleClusters(clusters, name)` of
`ServiceNamespaceLister.Get` with the statement after it (lines 127-149), over the
candidates still to visit. The inner loop returns at the first service whose unique name
is `name`. -/
def ServiceNamespaceLister.getLoop (c : Codec) (s : ServiceNamespaceLister) (name : String) :
    StringSlice → CallLog → Outcome Object
  | [], calls => ⟨calls, .error (Err.NotFound "service" name)⟩
  | cluster :: rest, calls0 =>
    let calls := calls0 ++ [RegistryCall.GetResourceListerFromFactory cluster]
    match s.federatedInformerManager.GetResourceListerFromFactory cluster with
    | none => getLoop c s name rest calls
    | some (serviceLister, servicesSynced) =>
      if !servicesSynced then getLoop c s name rest calls
      else
        match serviceLister with
        | .otherLister => getLoop c s name rest calls
        | .serviceLister svcLister =>
          match svcLister.Services s.namespace_ labels_Everything with
          | .error _ => getLoop c s name rest calls
          | .ok svcs =>
            match svcs.find? (fun svc => name == c.GenUniqueName cluster svc.Name) with
            | some svc => ⟨calls, .ok (Object.service (c.MakeObjectUnique svc cluster))⟩
            | none => getLoop c s name rest calls

/-- The method `ServiceNamespaceLister.Get` (lines 121-150). -/
def ServiceNamespaceLister.Get (c : Codec) (s : ServiceNamespaceLister) (name : String) :
    Outcome Object :=
  match s.federatedInformerManager.GetReadyClusters with
  | .error err => ⟨[RegistryCall.GetReadyClusters], .error err⟩
  | .ok clusters =>
    s.getLoop c name (c.GetPossibleClusters clusters name) [RegistryCall.GetReadyClusters]

/-- Go's `strings.Split(s, sep)` for a separator of one character, on the characters of
`s`: the pieces between the occurrences of `sep`, one more than there are occurrences. -/
def splitChars (sep : Char) : List Char → List (List Char)
  | [] => [[]]
  | ch :: rest =>
    if ch = sep then [] :: splitChars sep rest
    else
      match splitChars sep rest with
      | [] => [[ch]]
      | piece :: pieces => (ch :: piece) :: pieces

/-- The call `strings.Split(s, "/")`. -/
def strings_Split_slash (s : String) : List String :=
  (splitChars '/' s.data).map String.mk

/-- The method `ServiceLister.Get` (lines 82-88). -/
def ServiceLister.Get (c : Codec) (s : ServiceLister) (name : String) : Outcome Object :=
  match strings_Split_slash name with
  | [item0, item1] => (s.ByNamespace item0).Get c item1
  | _ => ⟨[], .error (Err.BadRequest ("invalid name " ++ c.Quote name))⟩

/-- The aggregated lister seen through the interface `cache.GenericNamespaceLister`. -/
structure GenericNamespaceLister where
  Get : String → Except Err Object
  List : Selector → Except Err ObjectSlice

/-- The interface `cache.GenericLister`. -/
structure GenericLister where
  Get : String → Except Err Object
  ByNamespace : String → GenericNamespaceLister
  List : Selector → Except Err ObjectSlice

/-- The aggregated service lister as a `cache.GenericLister` (the assertions of lines 44-47). -/
def ServiceLister.asGenericLister (c : Codec) (s : ServiceLister) : GenericLister :=
  { Get := fun name => (s.Get c name).result
    ByNamespace := fun namespace_ =>
      { Get := fun name => ((s.ByNamespace namespace_).Get c name).result
        List := fun selector => ((s.ByNamespace namespace_).List c selector).result }
    List := fun selector => (s.List c selector).result }

/-! ## The REST adapter (`pkg/registry/hpaaggregator/aggregation/forward/service.go`) -/

/-- A request context, as far as it is read: the namespace of the request. -/
structure Context where
  Namespace : String
  deriving DecidableEq, Repr

/-- The function `genericapirequest.NamespaceValue`. -/
def NamespaceValue (ctx : Context) : String := ctx.Namespace

/-- The options `metav1.GetOptions`. -/
structure GetOptions where
  ResourceVersion : String
  deriving DecidableEq, Repr

/-- The options `metainternalversion.ListOptions`, as far as they are read; a `nil`
selector is `none`. -/
structure ListOptions where
  LabelSelector : Option Selector
  FieldSelector : Option FieldSelector
  deriving DecidableEq, Repr

/-- The list wrapper `corev1.ServiceList`. -/
structure ServiceList where
  Items : ServiceSlice
  deriving DecidableEq, Repr

structure ServiceREST where
  serviceLister : GenericLister
  federatedInformerManager : FederatedInformerManager
  minRequestTimeout : Nat

/-- The method `ServiceREST.Get` (lines 89-102). The `klog` call of line 97 only logs. -/
def ServiceREST.Get (s : ServiceREST) (ctx : Context) (name : String)
    (_opts : Option GetOptions) : Except Err Object :=
  let namespace_ := NamespaceValue ctx
  match (s.serviceLister.ByNamespace namespace_).Get name with
  | .error err =>
    if err.IsNotFound then .error err
    else .error (Err.Wrapped "failed getting service" err)
  | .ok obj => .ok obj

/-- The function `convertAndFilterServiceObject` (lines 129-144); the selector is not used
(lines 136-139 are commented out in the source). -/
def convertAndFilterServiceObject (objs : ObjectSlice) (_selector : FieldSelector) :
    ServiceSlice :=
  objs.foldl
    (fun newObjs obj =>
      match obj with
      | .service svc => newObjs ++ [svc]
      | .other _ _ => newObjs)
    []

/-- The label selector computed at lines 109-112 and 151-154. -/
def labelOf (options : Option ListOptions) : Selector :=
  match options with
  | none => labels_Everything
  | some opts =>
    match opts.LabelSelector with
    | none => labels_Everything
    | some label => label

/-- The method `ServiceREST.List` (lines 108-127). -/
def ServiceREST.List (s : ServiceREST) (ctx : Context) (options : Option ListOptions) :
    Except Err ServiceList :=
  let label := labelOf options
  let namespace_ := NamespaceValue ctx
  match (s.serviceLister.ByNamespace namespace_).List label with
  | .error err => .error (Err.Wrapped "failed listing services" err)
  | .ok objs =>
    let field :=
      match options with
      | none => fields_Everything
      | some opts =>
        match opts.FieldSelector with
        | none => fields_Everything
        | some f => f
    let svcs := convertAndFilterServiceObject objs field
    .ok { Items := svcs }

/-! ## The watch fan-in (`ServiceREST.Watch`, lines 150-226) -/

/-- The type `watch.EventType`. -/
inductive EventType where
  | Added
  | Modified
  | Deleted
  | Bookmark
  | Error
  deriving DecidableEq, Repr

/-- A `watch.Event`. -/
structure Event where
  Type_ : EventType
  Object : Object
  deriving DecidableEq, Repr

/-- Lines 211-214: the object of an event that carries a `*corev1.Service` is made unique
for the worker's cluster; any other event is left as it is. -/
def relabel (c : Codec) (cluster : String) (event : Event) : Event :=
  match event.Object with
  | .service svc => { event with Object := .service (c.MakeObjectUnique svc cluster) }
  | .other _ _ => event

/-- Where a worker goroutine (lines 190-223) stands. -/
inductive Location where
  /-- Line 196: waiting in `select`. -/
  | atSelect
  /-- Line 201: the upstream channel was found ended; waiting in `lock.Lock()`. -/
  | lockForClose
  /-- Line 202: holding the lock, before `if !isProxyChClosed`. -/
  | checkForClose
  /-- Line 207: holding the lock, before `lock.Unlock()`. -/
  | unlockAfterClose
  /-- Line 216: an event was taken and relabelled; waiting in `lock.Lock()`. -/
  | lockForSend (event : Event)
  /-- Line 217: holding the lock, before `if !isProxyChClosed`. -/
  | checkForSend (event : Event)
  /-- Line 218: holding the lock, in `proxyCh <- event` (the channel is unbuffered: the
  send completes when the consumer receives). -/
  | sending (event : Event)
  /-- Line 220: holding the lock, before `lock.Unlock()`. -/
  | unlockAfterSend
  /-- The goroutine has returned (the deferred function has stopped the upstream watch). -/
  | returned
  deriving DecidableEq, Repr

/-- Whether a worker at this location holds the lock. -/
def Location.holdsLock : Location → Bool
  | .checkForClose => true
  | .unlockAfterClose => true
  | .checkForSend _ => true
  | .sending _ => true
  | .unlockAfterSend => true
  | _ => false

/-- A Go runtime panic. -/
inductive Panic where
  | nilPointerDereference
  | closeOfClosedChannel
  | sendOnClosedChannel
  deriving DecidableEq, Repr

/-- The function `f` with its value at `i` replaced by `v`. -/
def setAt {α : Type} (f : Nat → α) (i : Nat) (v : α) : Nat → α :=
  fun j => if j = i then v else f j

/-- The state of a watch session: the variables shared by the workers (`lock`,
`isProxyChClosed`, `proxyCh`, the stop channel of the proxy watcher), each worker's
location, and the history of what has happened (kept for stating properties only). -/
structure Session where
  /-- Number of worker goroutines; worker `i` exists when `i < workers`. -/
  workers : Nat
  /-- The argument `cluster` of worker `i`. -/
  cluster : Nat → String
  location : Nat → Location
  /-- The worker holding `lock`, if any. -/
  lock : Option Nat
  isProxyChClosed : Bool
  /-- Whether the channel `proxyCh` is closed. -/
  proxyChClosed : Bool
  /-- Whether `proxyWatcher.StopChan()` is closed. -/
  stopped : Bool
  panicked : Option Panic
  /-- History: the events worker `i` has taken from its upstream `ResultChan`, in order. -/
  received : Nat → List Event
  /-- History: the events the consumer has received from `proxyCh`, in order, each with the
  worker that sent it. -/
  delivered : List (Nat × Event)
  /-- History: the workers that found their upstream channel ended, in order. -/
  observedEnd : List Nat
  /-- History: the workers that took the lock at line 201, in order. -/
  enteredClose : List Nat
  /-- History: the workers that executed `close(proxyCh)` (line 203), in order. -/
  closedBy : List Nat

/-- The session right after `Watch` has spawned one worker per element of `clusters`
(lines 172-175 and 190). -/
def Session.init (clusters : StringSlice) : Session :=
  { workers := clusters.length
    cluster := fun i => clusters.getD i ""
    location := fun _ => Location.atSelect
    lock := none
    isProxyChClosed := false
    proxyChClosed := false
    stopped := false
    panicked := none
    received := fun _ => []
    delivered := []
    observedEnd := []
    enteredClose := []
    closedBy := [] }

/-- The events worker `i` has forwarded to the consumer, in order. -/
def Session.forwarded (s : Session) (i : Nat) : List Event :=
  (s.delivered.filter (fun p => p.1 = i)).map (fun p => p.2)

/-- One atomic step of a session. -/
inductive Action where
  /-- The consumer calls `proxyWatcher.Stop()`. -/
  | stop
  /-- Worker `i`, in `select`, takes the stop signal and returns (lines 197-198). -/
  | stopSignal (i : Nat)
  /-- Worker `i`, in `select`, takes `event` from its upstream channel and relabels it
  (lines 199 and 211-214). -/
  | upstreamEvent (i : Nat) (event : Event)
  /-- Worker `i`, in `select`, finds its upstream channel ended (lines 199-200). -/
  | upstreamEnd (i : Nat)
  /-- Worker `i` gets the lock it is waiting for (line 201 or 216). -/
  | acquire (i : Nat)
  /-- Worker `i` executes its next statement while holding the lock: the check and close
  (lines 202-206), the check before sending (line 217), an unlock (line 207 or 220), or a
  send on a channel that is closed. -/
  | advance (i : Nat)
  /-- The consumer receives from `proxyCh` the event worker `i` is sending (line 218). -/
  | receive (i : Nat)
  deriving DecidableEq, Repr

/-- The statement executed by `advance i`. -/
def Session.advance (s : Session) (i : Nat) : Option Session :=
  match s.location i with
  | .checkForClose =>
    if !s.isProxyChClosed then
      if s.proxyChClosed then
        some { s with panicked := some Panic.closeOfClosedChannel }
      else
        some { s with
          proxyChClosed := true
          isProxyChClosed := true
          closedBy := s.closedBy ++ [i]
          location := setAt s.location i Location.unlockAfterClose }
    else
      some { s with location := setAt s.location i Location.unlockAfterClose }
  | .unlockAfterClose =>
    some { s with lock := none, location := setAt s.location i Location.returned }
  | .checkForSend event =>
    if !s.isProxyChClosed then
      some { s with location := setAt s.location i (Location.sending event) }
    else
      some { s with location := setAt s.location i Location.unlockAfterSend }
  | .sending _ =>
    if s.proxyChClosed then some { s with panicked := some Panic.sendOnClosedChannel }
    else none
  | .unlockAfterSend =>
    some { s with lock := none, location := setAt s.location i Location.atSelect }
  | _ => none

/-- The step relation of a session, as a function: `none` when the action is not enabled
in the state. After a panic nothing is enabled. -/
def Session.step (c : Codec) (s : Session) : Action → Option Session
  | .stop =>
    if s.panicked.isSome then none else some { s with stopped := true }
  | .stopSignal i =>
    if s.panicked.isSome || !decide (i < s.workers) then none
    else
      match s.location i with
      | .atSelect =>
        if s.stopped then some { s with location := setAt s.location i Location.returned }
        else none
      | _ => none
  | .upstreamEvent i event =>
    if s.panicked.isSome || !decide (i < s.workers) then none
    else
      match s.location i with
      | .atSelect =>
        some { s with
          received := setAt s.received i (s.received i ++ [event])
          location := setAt s.location i (Location.lockForSend (relabel c (s.cluster i) event)) }
      | _ => none
  | .upstreamEnd i =>
    if s.panicked.isSome || !decide (i < s.workers) then none
    else
      match s.location i with
      | .atSelect =>
        some { s with
          observedEnd := s.observedEnd ++ [i]
          location := setAt s.location i Location.lockForClose }
      | _ => none
  | .acquire i =>
    if s.panicked.isSome || !decide (i < s.workers) || s.lock.isSome then none
    else
      match s.location i with
      | .lockForClose =>
        some { s with
          lock := some i
          enteredClose := s.enteredClose ++ [i]
          location := setAt s.location i Location.checkForClose }
      | .lockForSend event =>
        some { s with lock := some i, location := setAt s.location i (Location.checkForSend event) }
      | _ => none
  | .advance i =>
    if s.panicked.isSome || !decide (i < s.workers) then none else s.advance i
  | .receive i =>
    if s.panicked.isSome || !decide (i < s.workers) || s.proxyChClosed then none
    else
      match s.location i with
      | .sending event =>
        some { s with
          delivered := s.delivered ++ [(i, event)]
          location := setAt s.location i Location.unlockAfterSend }
      | _ => none

/-- The state reached from `s` by a sequence of actions, `none` when one of them is not
enabled. -/
def Session.run (c : Codec) (s : Session) : List Action → Option Session
  | [] => some s
  | a :: rest =>
    match s.step c a with
    | none => none
    | some t => t.run c rest

/-- The method `String()` of a selector. -/
def Selector.String (l : Selector) : String := String.intercalate "," l.requirements

/-- The method `String()` of a field selector. -/
def FieldSelector.String (f : FieldSelector) : String := String.intercalate "," f.requirements

/-- What a call of `ServiceREST.Watch` does: it returns a watch session, returns an error,
or panics. -/
inductive WatchResult where
  | watcher (session : Session)
  | error (err : Err)
  | panic (p : Panic)

/-- The loop of lines 176-224 over the clusters still to visit; `spawned` holds the
clusters for which a worker has been started. Evaluating `options.FieldSelector.String()`
(line 183) on a `nil` selector panics. -/
def ServiceREST.startWorkers (s : ServiceREST) (namespace_ : String) (label : Selector)
    (options : ListOptions) : ClusterSlice → StringSlice → Except Panic StringSlice
  | [], spawned => .ok spawned
  | cluster :: rest, spawned =>
    match s.federatedInformerManager.GetClusterKubeClient cluster.Name with
    | none => startWorkers s namespace_ label options rest spawned
    | some client =>
      match options.FieldSelector with
      | none => .error Panic.nilPointerDereference
      | some field =>
        match client.WatchServices namespace_
            { LabelSelector := label.String
              FieldSelector := field.String
              TimeoutSeconds := some 1200 } with
        | .error _ => startWorkers s namespace_ label options rest spawned
        | .ok _ => startWorkers s namespace_ label options rest (spawned ++ [cluster.Name])

/-- The method `ServiceREST.Watch` (lines 150-226) up to the return of the proxy watcher;
what the workers do afterwards is `Session.step`. Line 161 reads `options.FieldSelector`,
which panics when `options` is `nil`. -/
def ServiceREST.Watch (s : ServiceREST) (ctx : Context) (options : Option ListOptions) :
    WatchResult :=
  let label := labelOf options
  let namespace_ := NamespaceValue ctx
  match options with
  | none => .panic Panic.nilPointerDereference
  | some opts =>
    match s.federatedInformerManager.GetReadyClusters with
    | .error err => .error (Err.Wrapped "failed watching services" err)
    | .ok clusters =>
      match s.startWorkers namespace_ label opts clusters [] with
      | .error p => .panic p
      | .ok spawned => .watcher (Session.init spawned)

/-! ## The aggregated lister over a store of objects

The listers of `pkg/util/aggregatedlister/service.go` once more, this time with the
objects as cells of a store, so that the difference between a cached object and its copy
can be stated: a per-cluster lister returns the addresses of objects of its cache,
`DeepCopy` allocates a new cell, and `clusterobject.MakeObjectUnique` rewrites the cell it
is given in place. -/

/-- The address of an object (a Go pointer `*corev1.Service`). -/
abbrev Address := Nat

/-- Go slice `[]*corev1.Service`, as addresses. -/
abbrev AddressSlice := List Address

instance : Inhabited Service := ⟨{ Namespace := "", Name := "", Labels := [], Payload := "" }⟩

/-- The objects allocated so far; the address of an object is its position. -/
structure Store where
  objects : ServiceSlice
  deriving DecidableEq, Repr

/-- The object at an address. -/
def Store.read (h : Store) (p : Address) : Service := h.objects.getD p default

/-- The method `DeepCopy` of `*corev1.Service`: a new cell with the same content; returns
the new store and the address of the copy. -/
def Store.DeepCopy (h : Store) (p : Address) : Store × Address :=
  (⟨h.objects ++ [h.read p]⟩, h.objects.length)

/-- The function `clusterobject.MakeObjectUnique(obj, clusterName)` on the object at
address `p`: it rewrites that object in place, and nothing else. -/
def Store.MakeObjectUnique (c : Codec) (h : Store) (p : Address) (clusterName : String) :
    Store :=
  ⟨h.objects.set p (c.MakeObjectUnique (h.read p) clusterName)⟩

/-- A per-cluster `corev1listers.ServiceLister` returning the addresses of the objects of
its cache; what it returns may depend on the content of the store. -/
structure CachedServiceLister where
  Services : Store → String → Selector → Except Err AddressSlice
  List : Store → Selector → Except Err AddressSlice

/-- The `interface{}` returned as lister by `GetResourceListerFromFactory`. -/
inductive CachedResourceLister where
  | serviceLister (l : CachedServiceLister)
  | otherLister

/-- A registry state whose listers return addresses. -/
structure CachedInformerManager where
  GetReadyClusters : Except Err ClusterSlice
  GetResourceListerFromFactory : String → Option (CachedResourceLister × Bool)

structure InStore.ServiceLister where
  federatedInformerManager : CachedInformerManager

structure InStore.ServiceNamespaceLister where
  namespace_ : String
  federatedInformerManager : CachedInformerManager

/-- Lines 74-76 and 113-115: copy the object at `p`, make the copy unique, append it. -/
def InStore.appendUniqueCopy (c : Codec) (clusterName : String)
    (acc : Store × AddressSlice) (p : Address) : Store × AddressSlice :=
  let copied := acc.1.DeepCopy p
  let service := copied.2
  (copied.1.MakeObjectUnique c service clusterName, acc.2 ++ [service])

/-- One iteration of the cluster loop of `ServiceLister.List` (lines 58-78): `acc` holds
the store and `ret`. -/
def InStore.ServiceLister.listIteration (c : Codec) (s : InStore.ServiceLister)
    (selector : Selector) (acc : Store × AddressSlice) (cluster : FederatedCluster) :
    Store × AddressSlice :=
  match s.federatedInformerManager.GetResourceListerFromFactory cluster.Name with
  | none => acc
  | some (serviceLister, servicesSynced) =>
    if !servicesSynced then acc
    else
      match serviceLister with
      | .otherLister => acc
      | .serviceLister svcLister =>
        match svcLister.List acc.1 selector with
        | .error _ => acc
        | .ok services => services.foldl (InStore.appendUniqueCopy c cluster.Name) acc

/-- The method `ServiceLister.List` (lines 53-80), from the store `h`: the store after the
call and the Go result pair. -/
def InStore.ServiceLister.List (c : Codec) (s : InStore.ServiceLister) (selector : Selector)
    (h : Store) : Store × Except Err AddressSlice :=
  match s.federatedInformerManager.GetReadyClusters with
  | .error err => (h, .error err)
  | .ok clusters =>
    let final := clusters.foldl (s.listIteration c selector) (h, [])
    (final.1, .ok final.2)

/-- The method `ServiceLister.ByNamespace` (lines 90-92). -/
def InStore.ServiceLister.ByNamespace (s : InStore.ServiceLister) (namespace_ : String) :
    InStore.ServiceNamespaceLister :=
  { federatedInformerManager := s.federatedInformerManager, namespace_ := namespace_ }

/-- One iteration of the cluster loop of `ServiceNamespaceLister.List` (lines 99-117). -/
def InStore.ServiceNamespaceLister.listIteration (c : Codec)
    (s : InStore.ServiceNamespaceLister) (selector : Selector) (acc : Store × AddressSlice)
    (cluster : FederatedCluster) : Store × AddressSlice :=
  match s.federatedInformerManager.GetResourceListerFromFactory cluster.Name with
  | none => acc
  | some (serviceLister, servicesSynced) =>
    if !servicesSynced then acc
    else
      match serviceLister with
      | .otherLister => acc
      | .serviceLister svcLister =>
        match svcLister.Services acc.1 s.namespace_ selector with
        | .error _ => acc
        | .ok svcs => svcs.foldl (InStore.appendUniqueCopy c cluster.Name) acc

/-- The method `ServiceNamespaceLister.List` (lines 94-119), from the store `h`. -/
def InStore.ServiceNamespaceLister.List (c : Codec) (s : InStore.ServiceNamespaceLister)
    (selector : Selector) (h : Store) : Store × Except Err AddressSlice :=
  match s.federatedInformerManager.GetReadyClusters with
  | .error err => (h, .error err)
  | .ok clusters =>
    let final := clusters.foldl (s.listIteration c selector) (h, [])
    (final.1, .ok final.2)

/-- The candidate loop of `ServiceNamespaceLister.Get` with the statement after it (lines
127-149), over the candidates still to visit; line 142 reads the name of each object,
lines 143-145 copy the first match, make the copy unique and return it. -/
def InStore.ServiceNamespaceLister.getLoop (c : Codec) (s : InStore.ServiceNamespaceLister)
    (name : String) (h : Store) : StringSlice → Store × Except Err Address
  | [] => (h, .error (Err.NotFound "service" name))
  | cluster :: rest =>
    match s.federatedInformerManager.GetResourceListerFromFactory cluster with
    | none => getLoop c s name h rest
    | some (serviceLister, servicesSynced) =>
      if !servicesSynced then getLoop c s name h rest
      else
        match serviceLister with
        | .otherLister => getLoop c s name h rest
        | .serviceLister svcLister =>
          match svcLister.Services h s.namespace_ labels_Everything with
          | .error _ => getLoop c s name h rest
          | .ok svcs =>
            match svcs.find? (fun p => name == c.GenUniqueName cluster (h.read p).Name) with
            | some p =>
              let copied := h.DeepCopy p
              let svc := copied.2
              (copied.1.MakeObjectUnique c svc cluster, .ok svc)
            | none => getLoop c s name h rest

/-- The method `ServiceNamespaceLister.Get` (lines 121-150), from the store `h`. -/
def InStore.ServiceNamespaceLister.Get (c : Codec) (s : InStore.ServiceNamespaceLister)
    (name : String) (h : Store) : Store × Except Err Address :=
  match s.federatedInformerManager.GetReadyClusters with
  | .error err => (h, .error err)
  | .ok clusters => s.getLoop c name h (c.GetPossibleClusters clusters name)

/-- The registry state seen as values: each lister returns the objects found in the store
`h` at the addresses it returns. -/
def InStore.view (h : Store) (m : CachedInformerManager) : FederatedInformerManager :=
  { GetReadyClusters := m.GetReadyClusters
    GetResourceListerFromFactory := fun cluster =>
      match m.GetResourceListerFromFactory cluster with
      | none => none
      | some (.otherLister, synced) => some (ResourceLister.otherLister, synced)
      | some (.serviceLister l, synced) =>
        some (ResourceLister.serviceLister
          { Services := fun namespace_ selector =>
              (l.Services h namespace_ selector).map (fun svcs => svcs.map h.read)
            List := fun selector => (l.List h selector).map (fun svcs => svcs.map h.read) },
          synced)
    GetClusterKubeClient := fun _ => none }

/-! ## Classification of annotations and labels (`pkg/controllers/federate/util.go`) -/

/-- A Go `map[string]string`: a finite map with distinct keys. A `range` loop visits the
entries in the order of the list; what the loops below compute does not depend on it. -/
abbrev StringMap := AList (fun _ : String => String)

/-- The values of the annotation and label keys named at lines 217-255 and 283. They are
constants declared in other packages (`scheduler`, `util`, `nsautoprop`, `common`,
`override`, `sourcefeedback`) and elsewhere in package `federate`. -/
structure Keys where
  scheduler_SchedulingModeAnnotation : String
  scheduler_StickyClusterAnnotation : String
  util_ConflictResolutionAnnotation : String
  nsautoprop_NoAutoPropagationAnnotation : String
  util_OrphanManagedResourcesAnnotation : String
  scheduler_TolerationsAnnotations : String
  scheduler_PlacementsAnnotations : String
  scheduler_ClusterSelectorAnnotations : String
  scheduler_AffinityAnnotations : String
  scheduler_MaxClustersAnnotations : String
  common_NoSchedulingAnnotation : String
  scheduler_FollowsObjectAnnotation : String
  common_FollowersAnnotation : String
  common_DisableFollowingAnnotation : String
  RetainReplicasAnnotation : String
  util_LatestReplicasetDigestsAnnotation : String
  sourcefeedback_SchedulingAnnotation : String
  sourcefeedback_SyncingAnnotation : String
  sourcefeedback_StatusAnnotation : String
  util_ConflictResolutionInternalAnnotation : String
  util_OrphanManagedResourcesInternalAnnotation : String
  common_EnableFollowerSchedulingAnnotation : String
  scheduler_PropagationPolicyNameLabel : String
  scheduler_ClusterPropagationPolicyNameLabel : String
  override_OverridePolicyNameLabel : String
  override_ClusterOverridePolicyNameLabel : String
  common_FederatedObjectAnnotation : String

/-- The set `federatedAnnotationSet` (lines 219-234): annotations copied to the federated
object instead of the template. -/
def federatedAnnotationSet (k : Keys) : StringSlice :=
  [ k.scheduler_SchedulingModeAnnotation,
    k.scheduler_StickyClusterAnnotation,
    k.util_ConflictResolutionAnnotation,
    k.nsautoprop_NoAutoPropagationAnnotation,
    k.util_OrphanManagedResourcesAnnotation,
    k.scheduler_TolerationsAnnotations,
    k.scheduler_PlacementsAnnotations,
    k.scheduler_ClusterSelectorAnnotations,
    k.scheduler_AffinityAnnotations,
    k.scheduler_MaxClustersAnnotations,
    k.common_NoSchedulingAnnotation,
    k.scheduler_FollowsObjectAnnotation,
    k.common_FollowersAnnotation,
    k.common_DisableFollowingAnnotation ]

/-- The set `ignoredAnnotationSet` (lines 238-247): annotations ignored on the source
object. -/
def ignoredAnnotationSet (k : Keys) : StringSlice :=
  [ k.RetainReplicasAnnotation,
    k.util_LatestReplicasetDigestsAnnotation,
    k.sourcefeedback_SchedulingAnnotation,
    k.sourcefeedback_SyncingAnnotation,
    k.sourcefeedback_StatusAnnotation,
    k.util_ConflictResolutionInternalAnnotation,
    k.util_OrphanManagedResourcesInternalAnnotation,
    k.common_EnableFollowerSchedulingAnnotation ]

/-- The set `federatedLabelSet` (lines 249-254). -/
def federatedLabelSet (k : Keys) : StringSlice :=
  [ k.scheduler_PropagationPolicyNameLabel,
    k.scheduler_ClusterPropagationPolicyNameLabel,
    k.override_OverridePolicyNameLabel,
    k.override_ClusterOverridePolicyNameLabel ]

/-- The method `Has` of a set of strings. -/
def Has (set : StringSlice) (key : String) : Bool := decide (key ∈ set)

/-- The body of the loop of `classifyStringMap` (lines 265-272): `acc` holds
`federatedMap` and `templateMap`. -/
def classifyEntry (matcher : String → Bool × Bool) (acc : StringMap × StringMap)
    (key value : String) : StringMap × StringMap :=
  let federated := (matcher key).1
  let template := (matcher key).2
  let federatedMap := if federated then acc.1.insert key value else acc.1
  let templateMap := if template then acc.2.insert key value else acc.2
  (federatedMap, templateMap)

/-- The function `classifyStringMap` (lines 257-275). -/
def classifyStringMap (src : StringMap) (matcher : String → Bool × Bool) :
    StringMap × StringMap :=
  src.foldl (classifyEntry matcher) (∅, ∅)

/-- The function `classifyAnnotation` (lines 286-296). -/
def classifyAnnotation (k : Keys) ( annotation : String) : Bool × Bool :=
  if Has (ignoredAnnotationSet k) annotation then (false, false)
  else if Has (federatedAnnotationSet k) annotation then (true, false)
  else (false, true)

/-- The function `classifyAnnotations` (lines 278-284). -/
def classifyAnnotations (k : Keys) (annotations : StringMap) : StringMap × StringMap :=
  let classified := classifyStringMap annotations ( classifyAnnotation k)
  let federatedAnnotations := classified.1
  let templateAnnotations := classified.2
  (federatedAnnotations.insert k.common_FederatedObjectAnnotation "1", templateAnnotations)

/-- The function `classifyLabel` (lines 306-312). -/
def classifyLabel (k : Keys) (labelKey : String) : Bool × Bool :=
  if Has (federatedLabelSet k) labelKey then (true, false) else (false, true)

/-- The function `classifyLabels` (lines 299-304). -/
def classifyLabels (k : Keys) (labels : StringMap) : StringMap × StringMap :=
  classifyStringMap labels (classifyLabel k)

/-! ## Definitions used to state the properties -/

/-- The objects a ready cluster contributes to an aggregated list, where `query` is the
list call made on the cluster's lister: the lister's result, in lister order, each object
made unique for the cluster; nothing when the lister is missing, not synced, of another
type, or when the list call fails. -/
def contribution (c : Codec) (m : FederatedInformerManager)
    (query : CoreServiceLister → Except Err ServiceSlice) (cluster : FederatedCluster) :
    ObjectSlice :=
  match m.GetResourceListerFromFactory cluster.Name with
  | some (.serviceLister l, true) =>
    match query l with
    | .ok svcs => svcs.map (fun svc => Object.service (c.MakeObjectUnique svc cluster.Name))
    | .error _ => []
  | _ => []

/-- Whether the cluster's lister exists, is synced, is a service lister, and answers the
list call `query` without error. -/
def answers (m : FederatedInformerManager)
    (query : CoreServiceLister → Except Err ServiceSlice) (cluster : FederatedCluster) : Bool :=
  match m.GetResourceListerFromFactory cluster.Name with
  | some (.serviceLister l, true) => (query l).isOk
  | _ => false

/-- The registry state `m` with its ready set replaced by `clusters`. -/
def withReadyClusters (m : FederatedInformerManager) (clusters : ClusterSlice) :
    FederatedInformerManager :=
  { m with GetReadyClusters := .ok clusters }

/-! ## Concrete data for the instances of the theorems -/

/-- A unique-name scheme that is injective on all pairs of strings: the length of the
cluster name in unary, a dash, the cluster name, the native name. -/
def unaryName (cluster name : String) : String :=
  String.mk (List.replicate cluster.length '1' ++ '-' :: (cluster.data ++ name.data))

/-- A codec built on `unaryName`; every ready cluster is a candidate. -/
def sampleCodec : Codec :=
  { MakeObjectUnique := fun svc cluster => { svc with Name := unaryName cluster svc.Name }
    GenUniqueName := unaryName
    GetPossibleClusters := fun clusters _ => clusters.map (fun cl => cl.Name)
    Quote := fun s => "\"" ++ s ++ "\"" }

/-- The service `svc1` of namespace `x`. -/
def svc1 : Service := { Namespace := "x", Name := "svc1", Labels := [], Payload := "" }

/-- The service `svc2` of namespace `x`. -/
def svc2 : Service := { Namespace := "x", Name := "svc2", Labels := [], Payload := "" }

/-- A lister holding the given services, whatever the selector. -/
def listerOf (svcs : ServiceSlice) : CoreServiceLister :=
  { Services := fun namespace_ _ => .ok (svcs.filter (fun svc => svc.Namespace = namespace_))
    List := fun _ => .ok svcs }

/-- A registry with ready clusters `A` and `B`: `A` holds `svc1` and `svc2`, `B` holds
`svc1`; the lister of `B` is synced or not. -/
def sampleRegistry (syncedB : Bool) : FederatedInformerManager :=
  { GetReadyClusters := .ok [⟨"A"⟩, ⟨"B"⟩]
    GetResourceListerFromFactory := fun cluster =>
      if cluster = "A" then some (.serviceLister (listerOf [svc1, svc2]), true)
      else if cluster = "B" then some (.serviceLister (listerOf [svc1]), syncedB)
      else none
    GetClusterKubeClient := fun _ => none }

/-- A registry whose ready clusters cannot be enumerated. -/
def failingRegistry : FederatedInformerManager :=
  { GetReadyClusters := .error (Err.Other "no cluster lister")
    GetResourceListerFromFactory := fun _ => none
    GetClusterKubeClient := fun _ => none }

/-- The services `Get` examines in candidate `cluster`: the result of
`Services(namespace).List(labels.Everything())` on the cluster's lister, and none when the
lister is missing, not synced, of another type, or when the list call fails. -/
def held (m : FederatedInformerManager) (namespace_ : String) (cluster : String) :
    ServiceSlice :=
  match m.GetResourceListerFromFactory cluster with
  | some (.serviceLister l, true) =>
    match l.Services namespace_ labels_Everything with
    | .ok svcs => svcs
    | .error _ => []
  | _ => []

/-- The `*corev1.Service` carried by an object, if it is one. -/
def asService : Object → Option Service
  | .service svc => some svc
  | .other _ _ => none

/-- A service REST adapter over the aggregated lister of a registry. -/
def restOver (c : Codec) (m : FederatedInformerManager) : ServiceREST :=
  { serviceLister := (ServiceLister.mk m).asGenericLister c
    federatedInformerManager := m
    minRequestTimeout := 1800 }

/-- A generic lister whose namespaced list returns the given objects. -/
def genericListerOf (objs : ObjectSlice) : GenericLister :=
  { Get := fun _ => .error (Err.Other "not used")
    ByNamespace := fun _ =>
      { Get := fun _ => .error (Err.Other "not used")
        List := fun _ => .ok objs }
    List := fun _ => .ok objs }

/-- The event a worker at this location has taken from its upstream and not yet handed to
the consumer or dropped. -/
def Location.pending : Location → List Event
  | .lockForSend event => [event]
  | .checkForSend event => [event]
  | .sending event => [event]
  | _ => []

/-- A state is reachable in the session over `clusters` when some sequence of actions
leads to it from the initial state. -/
def Session.Reachable (c : Codec) (clusters : StringSlice) (s : Session) : Prop :=
  ∃ actions, (Session.init clusters).run c actions = some s

/-- The invariant of a watch session. -/
structure Session.Inv (c : Codec) (s : Session) : Prop where
  /-- No panic has occurred. -/
  noPanic : s.panicked = none
  /-- The flag `isProxyChClosed` tells whether `proxyCh` is closed. -/
  flagEq : s.isProxyChClosed = s.proxyChClosed
  /-- The workers inside a critical section are exactly the holder of the lock. -/
  lockIff : ∀ i, (s.location i).holdsLock = true ↔ s.lock = some i
  /-- A worker is in the send statement only while the channel is open. -/
  sendingOpen : ∀ i event, s.location i = Location.sending event → s.isProxyChClosed = false
  /-- Only workers that found their upstream ended take the lock at line 201. -/
  enteredObserved : ∀ i ∈ s.enteredClose, i ∈ s.observedEnd
  /-- A worker waiting at line 201 has found its upstream ended. -/
  waitingObserved : ∀ i, s.location i = Location.lockForClose → i ∈ s.observedEnd
  /-- A worker at line 202 has taken the lock at line 201. -/
  checkEntered : ∀ i, s.location i = Location.checkForClose → i ∈ s.enteredClose
  /-- While the channel is open nobody has closed it, and at most one worker has taken the
  lock at line 201, which then stands at line 202. -/
  openClose : s.isProxyChClosed = false →
    s.closedBy = [] ∧
      (s.enteredClose = [] ∨ ∃ i, s.enteredClose = [i] ∧ s.location i = Location.checkForClose)
  /-- Once the channel is closed, it was closed once, by the first worker that took the
  lock at line 201. -/
  closedClose : s.isProxyChClosed = true →
    ∃ i rest, s.enteredClose = i :: rest ∧ s.closedBy = [i]
  /-- While the channel is open, every event a worker has taken was forwarded, except the
  one it is handling. -/
  pendingEq : s.isProxyChClosed = false → ∀ i,
    s.forwarded i ++ (s.location i).pending = (s.received i).map (relabel c (s.cluster i))
  /-- What a worker has forwarded is a prefix of what it has taken, relabelled. -/
  forwardedPrefix : ∀ i, s.forwarded i <+: (s.received i).map (relabel c (s.cluster i))

/-- An event announcing the service `svc1`. -/
def sampleEvent : Event := { Type_ := EventType.Added, Object := Object.service svc1 }

/-- The state of the session over the clusters `A` and `B` after the given actions (the
initial state of an empty session if they cannot be executed). -/
def sampleAfter (actions : List Action) : Session :=
  ((Session.init ["A", "B"]).run sampleCodec actions).getD (Session.init [])

/-- The listers of the registry read the cache only: what they return at a store that has
grown from `h` by new cells is what they return at `h`, and they return addresses of `h`. -/
def InStore.ReadsCacheOnly (h : Store) (m : CachedInformerManager) : Prop :=
  ∀ cluster l synced,
    m.GetResourceListerFromFactory cluster = some (CachedResourceLister.serviceLister l, synced) →
    ∀ selector,
      (∀ ext, l.List ⟨h.objects ++ ext⟩ selector = l.List h selector)
      ∧ (∀ svcs, l.List h selector = .ok svcs → ∀ q ∈ svcs, q < h.objects.length)
      ∧ (∀ ext namespace_,
          l.Services ⟨h.objects ++ ext⟩ namespace_ selector = l.Services h namespace_ selector)
      ∧ (∀ namespace_ svcs, l.Services h namespace_ selector = .ok svcs →
          ∀ q ∈ svcs, q < h.objects.length)

/-- The addresses returned by an operation, as the objects found at them in the store
after the operation. -/
def InStore.objectsAt (h : Store) (result : Except Err AddressSlice) : Except Err ObjectSlice :=
  result.map (fun ps => ps.map (fun p => Object.service (h.read p)))

/-- What one iteration of a cluster loop does to the store and to `ret`, for the list call
`query` made on a cached lister and its counterpart `pureQuery` on values: cells are only
added, `ret` receives their addresses, and when the listers read the cache only the new
cells hold the cluster's contribution. -/
def InStore.IterationSpec (c : Codec) (m : CachedInformerManager)
    (pureQuery : CoreServiceLister → Except Err ServiceSlice)
    (step : Store × AddressSlice → FederatedCluster → Store × AddressSlice) : Prop :=
  ∀ (objects : ServiceSlice) (ret : AddressSlice) (cluster : FederatedCluster),
    ∃ ext, step (⟨objects⟩, ret) cluster =
        (⟨objects ++ ext⟩, ret ++ List.range' objects.length ext.length)
      ∧ (∀ h0 pre, objects = h0.objects ++ pre → InStore.ReadsCacheOnly h0 m →
          ext.map Object.service = contribution c (InStore.view h0 m) pureQuery cluster)

/-- The addresses returned by a list operation (none when it fails). -/
def InStore.addressesOf (result : Except Err AddressSlice) : AddressSlice :=
  match result with
  | .ok ps => ps
  | .error _ => []

/-- The address returned by a get operation, as a list (empty when it fails). -/
def InStore.addressOf (result : Except Err Address) : AddressSlice :=
  match result with
  | .ok p => [p]
  | .error _ => []

/-- An operation that took the store from `before` to `after` and returned the addresses
`returned` has left every object of `before` as it was (in particular every cached
object), and each returned address is that of a cell allocated during the operation, no
two of them the same. -/
def InStore.CopiesOnly (before after : Store) (returned : AddressSlice) : Prop :=
  before.objects <+: after.objects
  ∧ (∀ p, p < before.objects.length → after.read p = before.read p)
  ∧ returned.Nodup
  ∧ ∀ p ∈ returned, before.objects.length ≤ p ∧ p < after.objects.length

/-- A store holding the cached objects `svc1` (address 0) and `svc2` (address 1). -/
def sampleStore : Store := ⟨[svc1, svc2]⟩

/-- A cached lister whose cache is the given addresses, whatever the selector; the
namespaced list keeps the objects of the namespace. -/
def cachedListerOf (cache : AddressSlice) : CachedServiceLister :=
  { Services := fun h namespace_ _ =>
      .ok (cache.filter (fun p => (h.read p).Namespace = namespace_))
    List := fun _ _ => .ok cache }

/-- A registry with the one ready cluster `A`, whose cache holds the addresses 0 and 1. -/
def sampleCachedRegistry : CachedInformerManager :=
  { GetReadyClusters := .ok [⟨"A"⟩]
    GetResourceListerFromFactory := fun cluster =>
      if cluster = "A" then some (.serviceLister (cachedListerOf [0, 1]), true) else none }

/-- The claim about `classifyAnnotations`, as stated, for the source `src` and the two maps
returned: the key sets are disjoint; a source key in the ignored set is in neither map; a
source key in the federated set (and not ignored) is in the federated map only; every
other source key is in the template map only; each with its source value; and the only
entry not from the source is the marker with value "1" in the federated map. -/
def SplitsAnnotations (k : Keys) (src federated template : StringMap) : Prop :=
  (∀ key, ¬ (key ∈ federated ∧ key ∈ template))
  ∧ (∀ key ∈ src, key ∈ ignoredAnnotationSet k → key ∉ federated ∧ key ∉ template)
  ∧ (∀ key ∈ src, key ∉ ignoredAnnotationSet k → key ∈ federatedAnnotationSet k →
      federated.lookup key = src.lookup key ∧ key ∉ template)
  ∧ (∀ key ∈ src, key ∉ ignoredAnnotationSet k → key ∉ federatedAnnotationSet k →
      template.lookup key = src.lookup key ∧ key ∉ federated)
  ∧ (∀ key value, template.lookup key = some value → src.lookup key = some value)
  ∧ (∀ key value, federated.lookup key = some value →
      src.lookup key = some value ∨ (key = k.common_FederatedObjectAnnotation ∧ value = "1"))
  ∧ federated.lookup k.common_FederatedObjectAnnotation = some "1"

/-- The claim about `classifyLabels`: the federated map holds the source entries whose key
is in the federated label set, the template map holds all the others, the two are
disjoint, and together they are the source. -/
def SplitsLabels (k : Keys) (src federated template : StringMap) : Prop :=
  (∀ key, ¬ (key ∈ federated ∧ key ∈ template))
  ∧ (∀ key, federated.lookup key =
      if key ∈ federatedLabelSet k then src.lookup key else none)
  ∧ (∀ key, template.lookup key =
      if key ∈ federatedLabelSet k then none else src.lookup key)
  ∧ (∀ key, key ∈ src ↔ key ∈ federated ∨ key ∈ template)
  ∧ (∀ key value, src.lookup key = some value ↔
      federated.lookup key = some value ∨ template.lookup key = some value)

/-- Sample values for the keys, all different. -/
def sampleKeys : Keys :=
  { scheduler_SchedulingModeAnnotation := "kubeadmiral.io/scheduling-mode"
    scheduler_StickyClusterAnnotation := "kubeadmiral.io/sticky-cluster"
    util_ConflictResolutionAnnotation := "kubeadmiral.io/conflict-resolution"
    nsautoprop_NoAutoPropagationAnnotation := "kubeadmiral.io/no-auto-propagation"
    util_OrphanManagedResourcesAnnotation := "kubeadmiral.io/orphan"
    scheduler_TolerationsAnnotations := "kubeadmiral.io/tolerations"
    scheduler_PlacementsAnnotations := "kubeadmiral.io/placements"
    scheduler_ClusterSelectorAnnotations := "kubeadmiral.io/clusterSelector"
    scheduler_AffinityAnnotations := "kubeadmiral.io/affinity"
    scheduler_MaxClustersAnnotations := "kubeadmiral.io/maxClusters"
    common_NoSchedulingAnnotation := "kubeadmiral.io/no-scheduling"
    scheduler_FollowsObjectAnnotation := "kubeadmiral.io/follows-object"
    common_FollowersAnnotation := "kubeadmiral.io/followers"
    common_DisableFollowingAnnotation := "kubeadmiral.io/disable-following"
    RetainReplicasAnnotation := "kubeadmiral.io/retain-replicas"
    util_LatestReplicasetDigestsAnnotation := "kubeadmiral.io/latest-replicaset-digests"
    sourcefeedback_SchedulingAnnotation := "kubeadmiral.io/scheduling"
    sourcefeedback_SyncingAnnotation := "kubeadmiral.io/syncing"
    sourcefeedback_StatusAnnotation := "kubeadmiral.io/status"
    util_ConflictResolutionInternalAnnotation := "internal.kubeadmiral.io/conflict-resolution"
    util_OrphanManagedResourcesInternalAnnotation := "internal.kubeadmiral.io/orphan"
    common_EnableFollowerSchedulingAnnotation := "internal.kubeadmiral.io/enable-follower-scheduling"
    scheduler_PropagationPolicyNameLabel := "kubeadmiral.io/propagation-policy-name"
    scheduler_ClusterPropagationPolicyNameLabel := "kubeadmiral.io/cluster-propagation-policy-name"
    override_OverridePolicyNameLabel := "kubeadmiral.io/override-policy-name"
    override_ClusterOverridePolicyNameLabel := "kubeadmiral.io/cluster-override-policy-name"
    common_FederatedObjectAnnotation := "kubeadmiral.io/federated-object" }

/-- The map with the given entries, an earlier entry overriding a later one of the same
key. -/
def stringMapOf (entries : List (String × String)) : StringMap :=
  entries.foldr (fun e m => m.insert e.1 e.2) ∅

/-- Source annotations: one to federate, one to ignore, one of the user, and the marker. -/
def sampleAnnotations : StringMap :=
  stringMapOf
    [ ("kubeadmiral.io/scheduling-mode", "Divide"),
      ("kubeadmiral.io/retain-replicas", "true"),
      ("example.com/team", "a"),
      ("kubeadmiral.io/federated-object", "0") ]

/-- Source labels: a policy name and a label of the user. -/
def sampleLabels : StringMap :=
  stringMapOf [("kubeadmiral.io/propagation-policy-name", "pp"), ("app", "web")]

/-- A member cluster client whose watch call succeeds. -/
def sampleClient : KubeClient := { WatchServices := fun _ _ => .ok () }

/-- A registry with the one ready cluster `A`, which has a client. -/
def watchRegistry : FederatedInformerManager :=
  { GetReadyClusters := .ok [⟨"A"⟩]
    GetResourceListerFromFactory := fun _ => none
    GetClusterKubeClient := fun cluster => if cluster = "A" then some sampleClient else none }

/-! ## Properties of the aggregated lister -/

/-- Appending the images of a list one by one appends the mapped list. -/
theorem foldl_append_singleton {α β : Type} (f : α → β) (xs : List α) (acc : List β) :
    xs.foldl (fun ret x => ret ++ [f x]) acc = acc ++ xs.map f := by
  induction xs generalizing acc with
  | nil => simp
  | cons x xs ih => simp [ih]

/-- One iteration of the loop of `ServiceLister.List` logs one call and appends the
cluster's contribution. -/
theorem listIteration_all (c : Codec) (s : ServiceLister) (selector : Selector)
    (acc : CallLog × ObjectSlice) (cluster : FederatedCluster) :
    s.listIteration c selector acc cluster =
      (acc.1 ++ [RegistryCall.GetResourceListerFromFactory cluster.Name],
        acc.2 ++ contribution c s.federatedInformerManager (fun l => l.List selector) cluster) := by
  unfold ServiceLister.listIteration contribution
  rcases h : s.federatedInformerManager.GetResourceListerFromFactory cluster.Name with _ | ⟨l, b⟩
  · simp
  · cases b
    · simp
    · cases l with
      | otherLister => simp
      | serviceLister l =>
        rcases hq : l.List selector with e | svcs
        · simp [hq]
        · simp [hq, foldl_append_singleton]

/-- One iteration of the loop of `ServiceNamespaceLister.List` logs one call and appends
the cluster's contribution. -/
theorem listIteration_namespaced (c : Codec) (s : ServiceNamespaceLister) (selector : Selector)
    (acc : CallLog × ObjectSlice) (cluster : FederatedCluster) :
    s.listIteration c selector acc cluster =
      (acc.1 ++ [RegistryCall.GetResourceListerFromFactory cluster.Name],
        acc.2 ++ contribution c s.federatedInformerManager
          (fun l => l.Services s.namespace_ selector) cluster) := by
  unfold ServiceNamespaceLister.listIteration contribution
  rcases h : s.federatedInformerManager.GetResourceListerFromFactory cluster.Name with _ | ⟨l, b⟩
  · simp
  · cases b
    · simp
    · cases l with
      | otherLister => simp
      | serviceLister l =>
        rcases hq : l.Services s.namespace_ selector with e | svcs
        · simp [hq]
        · simp [hq, foldl_append_singleton]

/-- A loop whose iteration logs one call and appends one contribution logs the calls of
all clusters and appends the concatenation of their contributions. -/
theorem foldl_contributions (step : CallLog × ObjectSlice → FederatedCluster → CallLog × ObjectSlice)
    (contrib : FederatedCluster → ObjectSlice)
    (hstep : ∀ acc cluster, step acc cluster =
      (acc.1 ++ [RegistryCall.GetResourceListerFromFactory cluster.Name], acc.2 ++ contrib cluster))
    (clusters : ClusterSlice) (acc : CallLog × ObjectSlice) :
    clusters.foldl step acc =
      (acc.1 ++ clusters.map (fun cl => RegistryCall.GetResourceListerFromFactory cl.Name),
        acc.2 ++ (clusters.map contrib).flatten) := by
  induction clusters generalizing acc with
  | nil => simp
  | cons cl rest ih => simp [List.foldl_cons, ih, hstep, List.append_assoc]

/-- Clusters that do not answer contribute nothing, so they can be removed. -/
theorem flatten_contribution_filter (c : Codec) (m : FederatedInformerManager)
    (query : CoreServiceLister → Except Err ServiceSlice) (clusters : ClusterSlice) :
    ((clusters.filter (answers m query)).map (contribution c m query)).flatten =
      (clusters.map (contribution c m query)).flatten := by
  induction clusters with
  | nil => rfl
  | cons cl rest ih =>
    by_cases h : answers m query cl = true
    · simp [List.filter_cons, h, ih]
    · have hnil : contribution c m query cl = [] := by
        unfold answers at h
        unfold contribution
        rcases hm : m.GetResourceListerFromFactory cl.Name with _ | ⟨l, b⟩
        · rfl
        · cases b
          · cases l <;> rfl
          · cases l with
            | otherLister => rfl
            | serviceLister l =>
              rcases hq : query l with e | svcs
              · simp [hq]
              · simp [hm, hq, Except.isOk, Except.toBool] at h
      simp [List.filter_cons, h, ih, hnil]

/-- Result of `ServiceLister.List` in a registry state with ready clusters `clusters`. -/
theorem list_all_result (c : Codec) (m : FederatedInformerManager) (clusters : ClusterSlice)
    (hready : m.GetReadyClusters = .ok clusters) (selector : Selector) :
    (ServiceLister.mk m).List c selector =
      ⟨RegistryCall.GetReadyClusters ::
          clusters.map (fun cl => RegistryCall.GetResourceListerFromFactory cl.Name),
        .ok ((clusters.map (contribution c m (fun l => l.List selector))).flatten)⟩ := by
  unfold ServiceLister.List
  simp only [hready]
  rw [foldl_contributions _ (contribution c m (fun l => l.List selector))
    (fun acc cluster => listIteration_all c ⟨m⟩ selector acc cluster)]
  simp

/-- Result of `ServiceNamespaceLister.List` in a registry state with ready clusters
`clusters`. -/
theorem list_namespaced_result (c : Codec) (m : FederatedInformerManager)
    (clusters : ClusterSlice) (hready : m.GetReadyClusters = .ok clusters)
    (namespace_ : String) (selector : Selector) :
    (ServiceNamespaceLister.mk namespace_ m).List c selector =
      ⟨RegistryCall.GetReadyClusters ::
          clusters.map (fun cl => RegistryCall.GetResourceListerFromFactory cl.Name),
        .ok ((clusters.map
          (contribution c m (fun l => l.Services namespace_ selector))).flatten)⟩ := by
  unfold ServiceNamespaceLister.List
  simp only [hready]
  rw [foldl_contributions _ (contribution c m (fun l => l.Services namespace_ selector))
    (fun acc cluster => listIteration_namespaced c ⟨namespace_, m⟩ selector acc cluster)]
  simp

/-- C1: in a registry state where `GetReadyClusters` succeeds with `clusters`,
`ServiceLister.List` and `ServiceNamespaceLister.List` return, with no error, the
concatenation over `clusters`, in order, of each cluster's contribution: the result of the
cluster's lister (all namespaces, resp. the requested namespace) in lister order, each
object made unique for that cluster by `MakeObjectUnique`, and nothing for a cluster whose
lister is missing, not synced, of another type, or whose list call fails; the result is
the same after removing the clusters that contribute nothing from the ready set. -/
theorem C1_list_is_concatenation (c : Codec) (m : FederatedInformerManager)
    (clusters : ClusterSlice) (hready : m.GetReadyClusters = .ok clusters)
    (namespace_ : String) (selector : Selector) :
    ((ServiceLister.mk m).List c selector).result =
        .ok ((clusters.map (contribution c m (fun l => l.List selector))).flatten)
    ∧ ((ServiceNamespaceLister.mk namespace_ m).List c selector).result =
        .ok ((clusters.map
          (contribution c m (fun l => l.Services namespace_ selector))).flatten)
    ∧ (∀ cluster l svcs,
        m.GetResourceListerFromFactory cluster.Name = some (.serviceLister l, true) →
        (l.List selector = .ok svcs →
          contribution c m (fun l => l.List selector) cluster =
            svcs.map (fun svc => Object.service (c.MakeObjectUnique svc cluster.Name)))
        ∧ (l.Services namespace_ selector = .ok svcs →
          contribution c m (fun l => l.Services namespace_ selector) cluster =
            svcs.map (fun svc => Object.service (c.MakeObjectUnique svc cluster.Name))))
    ∧ (∀ cluster query, answers m query cluster = false → contribution c m query cluster = [])
    ∧ ((ServiceLister.mk (withReadyClusters m
          (clusters.filter (answers m (fun l => l.List selector))))).List c selector).result =
        ((ServiceLister.mk m).List c selector).result
    ∧ ((ServiceNamespaceLister.mk namespace_ (withReadyClusters m
          (clusters.filter (answers m (fun l => l.Services namespace_ selector))))).List c
            selector).result =
        ((ServiceNamespaceLister.mk namespace_ m).List c selector).result := by
  refine ⟨?_, ?_, ?_, ?_, ?_, ?_⟩
  · rw [list_all_result c m clusters hready]
  · rw [list_namespaced_result c m clusters hready]
  · intro cluster l svcs hl
    constructor
    · intro hq
      simp [contribution, hl, hq]
    · intro hq
      simp [contribution, hl, hq]
  · intro cluster query h
    unfold answers at h
    unfold contribution
    rcases hm : m.GetResourceListerFromFactory cluster.Name with _ | ⟨l, b⟩
    · rfl
    · cases b
      · cases l <;> rfl
      · cases l with
        | otherLister => rfl
        | serviceLister l =>
          rcases hq : query l with e | svcs
          · simp [hq]
          · simp [hm, hq, Except.isOk, Except.toBool] at h
  · rw [list_all_result c m clusters hready,
      list_all_result c (withReadyClusters m _) _ rfl]
    simp only [withReadyClusters, contribution, answers]
    exact congrArg Except.ok (flatten_contribution_filter c m _ clusters)
  · rw [list_namespaced_result c m clusters hready,
      list_namespaced_result c (withReadyClusters m _) _ rfl]
    simp only [withReadyClusters, contribution, answers]
    exact congrArg Except.ok (flatten_contribution_filter c m _ clusters)

/-- Instance of C1: with `B` not yet synced, both lists return only the objects of `A`,
made unique for `A`, and no error. -/
theorem C1_list_is_concatenation_witness :
    (sampleRegistry false).GetReadyClusters = .ok [⟨"A"⟩, ⟨"B"⟩]
    ∧ ((ServiceLister.mk (sampleRegistry false)).List sampleCodec labels_Everything).result =
        .ok [Object.service { svc1 with Name := "1-Asvc1" },
             Object.service { svc2 with Name := "1-Asvc2" }]
    ∧ ((ServiceNamespaceLister.mk "x" (sampleRegistry false)).List sampleCodec
          labels_Everything).result =
        .ok [Object.service { svc1 with Name := "1-Asvc1" },
             Object.service { svc2 with Name := "1-Asvc2" }] :=
  ⟨rfl,
    (C1_list_is_concatenation sampleCodec (sampleRegistry false) [⟨"A"⟩, ⟨"B"⟩] rfl "x"
      labels_Everything).1.trans (congrArg Except.ok (by decide)),
    (C1_list_is_concatenation sampleCodec (sampleRegistry false) [⟨"A"⟩, ⟨"B"⟩] rfl "x"
      labels_Everything).2.1.trans (congrArg Except.ok (by decide))⟩

/-- The services examined in a cluster are those its existing, synced, correctly typed and
successfully listing lister returns. -/
theorem mem_held (m : FederatedInformerManager) (namespace_ cluster : String) (svc : Service) :
    svc ∈ held m namespace_ cluster ↔
      ∃ l svcs, m.GetResourceListerFromFactory cluster = some (.serviceLister l, true)
        ∧ l.Services namespace_ labels_Everything = .ok svcs ∧ svc ∈ svcs := by
  unfold held
  rcases hm : m.GetResourceListerFromFactory cluster with _ | ⟨l, b⟩
  · simp
  · cases b
    · cases l <;> simp
    · cases l with
      | otherLister => simp
      | serviceLister l =>
        rcases hq : l.Services namespace_ labels_Everything with e | svcs
        · simp [hq]
        · simp [hq]

/-- One iteration of the candidate loop of `ServiceNamespaceLister.Get`. -/
theorem getLoop_cons (c : Codec) (s : ServiceNamespaceLister) (name cluster : String)
    (rest : StringSlice) (calls : CallLog) :
    s.getLoop c name (cluster :: rest) calls =
      match (held s.federatedInformerManager s.namespace_ cluster).find?
          (fun svc => name == c.GenUniqueName cluster svc.Name) with
      | some svc =>
        ⟨calls ++ [RegistryCall.GetResourceListerFromFactory cluster],
          .ok (Object.service (c.MakeObjectUnique svc cluster))⟩
      | none =>
        s.getLoop c name rest (calls ++ [RegistryCall.GetResourceListerFromFactory cluster]) := by
  rw [ServiceNamespaceLister.getLoop]
  unfold held
  rcases hm : s.federatedInformerManager.GetResourceListerFromFactory cluster with _ | ⟨l, b⟩
  · simp
  · cases b
    · cases l <;> simp
    · cases l with
      | otherLister => simp
      | serviceLister l =>
        rcases hq : l.Services s.namespace_ labels_Everything with e | svcs
        · simp [hq]
        · simp only [hq]
          rcases List.find? (fun svc => name == c.GenUniqueName cluster svc.Name) svcs with _ | svc
          · simp
          · simp

/-- The candidate loop only adds to the log of calls. -/
theorem getLoop_calls (c : Codec) (s : ServiceNamespaceLister) (name : String)
    (candidates : StringSlice) (calls : CallLog) :
    ∃ more, (s.getLoop c name candidates calls).calls = calls ++ more := by
  induction candidates generalizing calls with
  | nil => exact ⟨[], by simp [ServiceNamespaceLister.getLoop]⟩
  | cons cluster rest ih =>
    rw [getLoop_cons]
    rcases hf : (held s.federatedInformerManager s.namespace_ cluster).find?
        (fun svc => name == c.GenUniqueName cluster svc.Name) with _ | svc
    · rw [hf]
      obtain ⟨more, hmore⟩ := ih (calls ++ [RegistryCall.GetResourceListerFromFactory cluster])
      exact ⟨RegistryCall.GetResourceListerFromFactory cluster :: more, by simp [hmore]⟩
    · rw [hf]
      exact ⟨[RegistryCall.GetResourceListerFromFactory cluster], rfl⟩

/-- The candidate loop fails only with the typed not-found error for the requested name. -/
theorem getLoop_error (c : Codec) (s : ServiceNamespaceLister) (name : String)
    (candidates : StringSlice) (calls : CallLog) (e : Err)
    (h : (s.getLoop c name candidates calls).result = .error e) :
    e = Err.NotFound "service" name := by
  induction candidates generalizing calls with
  | nil =>
    simp only [ServiceNamespaceLister.getLoop] at h
    injection h with h
    exact h.symm
  | cons cluster rest ih =>
    rw [getLoop_cons] at h
    rcases hf : (held s.federatedInformerManager s.namespace_ cluster).find?
        (fun svc => name == c.GenUniqueName cluster svc.Name) with _ | svc
    · rw [hf] at h
      exact ih _ h
    · rw [hf] at h
      simp at h

/-- The candidate loop fails exactly when no candidate cluster holds a service whose unique
name is the requested one. -/
theorem getLoop_error_iff (c : Codec) (s : ServiceNamespaceLister) (name : String)
    (candidates : StringSlice) (calls : CallLog) :
    (∃ e, (s.getLoop c name candidates calls).result = .error e) ↔
      ∀ cluster ∈ candidates, ∀ svc ∈ held s.federatedInformerManager s.namespace_ cluster,
        c.GenUniqueName cluster svc.Name ≠ name := by
  induction candidates generalizing calls with
  | nil => simp [ServiceNamespaceLister.getLoop]
  | cons cluster rest ih =>
    rw [getLoop_cons]
    rcases hf : (held s.federatedInformerManager s.namespace_ cluster).find?
        (fun svc => name == c.GenUniqueName cluster svc.Name) with _ | svc
    · rw [hf]
      simp only [ih, List.mem_cons, forall_eq_or_imp]
      rw [List.find?_eq_none] at hf
      constructor
      · intro hrest
        refine ⟨?_, hrest⟩
        intro svc hsvc heq
        exact hf svc hsvc (by simp [heq])
      · intro hall
        exact hall.2
    · rw [hf]
      have hmem := List.mem_of_find?_eq_some hf
      have hp := List.find?_some hf
      simp only [beq_iff_eq] at hp
      constructor
      · rintro ⟨e, he⟩
        simp at he
      · intro hall
        exact absurd hp.symm (hall cluster (List.mem_cons_self _ _) svc hmem)

/-- When the unique-name scheme is injective, the candidate loop returns the service of the
cluster encoded in the requested name. -/
theorem getLoop_found (c : Codec) (s : ServiceNamespaceLister)
    (hinj : ∀ c1 n1 c2 n2, c.GenUniqueName c1 n1 = c.GenUniqueName c2 n2 → c1 = c2 ∧ n1 = n2)
    (cluster : String) (svc : Service)
    (hsvc : svc ∈ held s.federatedInformerManager s.namespace_ cluster)
    (hkey : ∀ other ∈ held s.federatedInformerManager s.namespace_ cluster,
      other.Name = svc.Name → other = svc)
    (candidates : StringSlice) (hcand : cluster ∈ candidates) (calls : CallLog) :
    (s.getLoop c (c.GenUniqueName cluster svc.Name) candidates calls).result =
      .ok (Object.service (c.MakeObjectUnique svc cluster)) := by
  induction candidates generalizing calls with
  | nil => simp at hcand
  | cons cand rest ih =>
    rw [getLoop_cons]
    rcases hf : (held s.federatedInformerManager s.namespace_ cand).find?
        (fun other => c.GenUniqueName cluster svc.Name == c.GenUniqueName cand other.Name)
      with _ | found
    · rw [hf]
      have hne : cand ≠ cluster := by
        intro heq
        subst heq
        rw [List.find?_eq_none] at hf
        exact hf svc hsvc (by simp)
      rcases List.mem_cons.mp hcand with h | h
      · exact absurd h.symm hne
      · exact ih h _
    · rw [hf]
      have hmem := List.mem_of_find?_eq_some hf
      have hp := List.find?_some hf
      simp only [beq_iff_eq] at hp
      obtain ⟨hc, hn⟩ := hinj _ _ _ _ hp
      subst hc
      rw [hkey found hmem hn.symm]

/-- C2: let `cluster` have an existing, synced service lister that lists namespace
`namespace_` without error and returns `svcs`, let `svc` be one of `svcs` (the only one of
that name, names being the keys of a namespace), let `GenUniqueName` be injective on
(cluster, native name) pairs and let `GetPossibleClusters` offer `cluster` for the unique
name of `svc`. Then `ServiceNamespaceLister.Get` of that unique name returns, with no
error, `svc` made unique for `cluster`, whatever the other candidates hold. -/
theorem C2_get_returns_own_cluster_object (c : Codec) (m : FederatedInformerManager)
    (clusters : ClusterSlice) (hready : m.GetReadyClusters = .ok clusters)
    (cluster : FederatedCluster) (l : CoreServiceLister)
    (hlister : m.GetResourceListerFromFactory cluster.Name = some (.serviceLister l, true))
    (namespace_ : String) (svcs : ServiceSlice)
    (hlist : l.Services namespace_ labels_Everything = .ok svcs)
    (svc : Service) (hsvc : svc ∈ svcs)
    (hkey : ∀ other ∈ svcs, other.Name = svc.Name → other = svc)
    (hinj : ∀ c1 n1 c2 n2, c.GenUniqueName c1 n1 = c.GenUniqueName c2 n2 → c1 = c2 ∧ n1 = n2)
    (hcand : cluster.Name ∈ c.GetPossibleClusters clusters (c.GenUniqueName cluster.Name svc.Name)) :
    ((ServiceNamespaceLister.mk namespace_ m).Get c
        (c.GenUniqueName cluster.Name svc.Name)).result =
      .ok (Object.service (c.MakeObjectUnique svc cluster.Name)) := by
  have hheld : held m namespace_ cluster.Name = svcs := by
    simp [held, hlister, hlist]
  unfold ServiceNamespaceLister.Get
  simp only [hready]
  exact getLoop_found c ⟨namespace_, m⟩ hinj cluster.Name svc (by simpa [hheld] using hsvc)
    (by simpa [hheld] using hkey) _ hcand _

/-- C3: in a registry state where `GetReadyClusters` succeeds, `ServiceNamespaceLister.Get`
returns an error exactly when no candidate cluster given by `GetPossibleClusters` with an
existing, synced, correctly typed and successfully listing service lister holds, in the
namespace, a service whose unique name for that cluster is the requested name; and the
error is then the typed not-found error for resource "service" and the requested name. -/
theorem C3_get_not_found (c : Codec) (m : FederatedInformerManager)
    (clusters : ClusterSlice) (hready : m.GetReadyClusters = .ok clusters)
    (namespace_ name : String) :
    ((∃ e, ((ServiceNamespaceLister.mk namespace_ m).Get c name).result = .error e) ↔
      ¬ ∃ cluster ∈ c.GetPossibleClusters clusters name, ∃ l svcs svc,
          m.GetResourceListerFromFactory cluster = some (.serviceLister l, true)
          ∧ l.Services namespace_ labels_Everything = .ok svcs
          ∧ svc ∈ svcs ∧ c.GenUniqueName cluster svc.Name = name)
    ∧ (∀ e, ((ServiceNamespaceLister.mk namespace_ m).Get c name).result = .error e →
        e = Err.NotFound "service" name ∧ e.IsNotFound = true) := by
  unfold ServiceNamespaceLister.Get
  simp only [hready]
  constructor
  · rw [getLoop_error_iff]
    constructor
    · rintro hall ⟨cluster, hcand, l, svcs, svc, hl, hq, hsvc, hname⟩
      exact hall cluster hcand svc ((mem_held m namespace_ cluster svc).mpr ⟨l, svcs, hl, hq, hsvc⟩)
        hname
    · intro hnone cluster hcand svc hsvc hname
      obtain ⟨l, svcs, hl, hq, hmem⟩ := (mem_held m namespace_ cluster svc).mp hsvc
      exact hnone ⟨cluster, hcand, l, svcs, svc, hl, hq, hmem, hname⟩
  · intro e he
    have := getLoop_error c ⟨namespace_, m⟩ name _ _ e he
    subst this
    exact ⟨rfl, rfl⟩

/-- C4: when `GetReadyClusters` fails, `ServiceLister.List`, `ServiceNamespaceLister.List`
and `ServiceNamespaceLister.Get` return that error and make no other registry call; and
each of the two `List` methods returns an error exactly when `GetReadyClusters` does. -/
theorem C4_registry_failure_only (c : Codec) (m : FederatedInformerManager)
    (namespace_ name : String) (selector : Selector) :
    (∀ err, m.GetReadyClusters = .error err →
      (ServiceLister.mk m).List c selector = ⟨[RegistryCall.GetReadyClusters], .error err⟩
      ∧ (ServiceNamespaceLister.mk namespace_ m).List c selector =
          ⟨[RegistryCall.GetReadyClusters], .error err⟩
      ∧ (ServiceNamespaceLister.mk namespace_ m).Get c name =
          ⟨[RegistryCall.GetReadyClusters], .error err⟩)
    ∧ ((∃ e, ((ServiceLister.mk m).List c selector).result = .error e) ↔
        ∃ e, m.GetReadyClusters = .error e)
    ∧ ((∃ e, ((ServiceNamespaceLister.mk namespace_ m).List c selector).result = .error e) ↔
        ∃ e, m.GetReadyClusters = .error e)
    ∧ (∀ e, ((ServiceLister.mk m).List c selector).result = .error e →
        m.GetReadyClusters = .error e)
    ∧ (∀ e, ((ServiceNamespaceLister.mk namespace_ m).List c selector).result = .error e →
        m.GetReadyClusters = .error e) := by
  rcases hready : m.GetReadyClusters with err | clusters
  · refine ⟨?_, ?_, ?_, ?_, ?_⟩
    · intro err2 h
      injection h with h
      subst h
      simp [ServiceLister.List, ServiceNamespaceLister.List, ServiceNamespaceLister.Get, hready]
    · simp [ServiceLister.List, hready]
    · simp [ServiceNamespaceLister.List, hready]
    · intro e he
      simp [ServiceLister.List, hready] at he
      rw [he]
    · intro e he
      simp [ServiceNamespaceLister.List, hready] at he
      rw [he]
  · refine ⟨?_, ?_, ?_, ?_, ?_⟩
    · intro err h
      simp at h
    · simp [list_all_result c m clusters hready]
    · simp [list_namespaced_result c m clusters hready]
    · intro e he
      simp [list_all_result c m clusters hready] at he
    · intro e he
      simp [list_namespaced_result c m clusters hready] at he

/-- A run of `1` followed by a dash determines its length and what follows. -/
theorem unary_prefix_inj (k1 k2 : Nat) (r1 r2 : List Char)
    (h : List.replicate k1 '1' ++ '-' :: r1 = List.replicate k2 '1' ++ '-' :: r2) :
    k1 = k2 ∧ r1 = r2 := by
  induction k1 generalizing k2 with
  | zero =>
    cases k2 with
    | zero => simpa using h
    | succ k2 =>
      simp [List.replicate_succ] at h
  | succ k1 ih =>
    cases k2 with
    | zero =>
      simp [List.replicate_succ] at h
    | succ k2 =>
      simp only [List.replicate_succ, List.cons_append, List.cons.injEq, true_and] at h
      obtain ⟨hk, hr⟩ := ih k2 h
      exact ⟨by rw [hk], hr⟩

/-- The scheme `unaryName` is injective on (cluster, native name) pairs. -/
theorem unaryName_injective (c1 n1 c2 n2 : String) (h : unaryName c1 n1 = unaryName c2 n2) :
    c1 = c2 ∧ n1 = n2 := by
  unfold unaryName at h
  have hdata := congrArg String.data h
  simp only at hdata
  obtain ⟨hk, hr⟩ := unary_prefix_inj _ _ _ _ hdata
  have hlen : c1.data.length = c2.data.length := hk
  obtain ⟨hc, hn⟩ := List.append_inj hr hlen
  exact ⟨String.ext hc, String.ext hn⟩

/-- Instance of C2: clusters `A` and `B` both hold `svc1` in namespace `x`, and `A` comes
first among the candidates; `Get` of the unique name of the `svc1` of `B` returns the
object of `B`. -/
theorem C2_get_returns_own_cluster_object_witness :
    svc1 ∈ held (sampleRegistry true) "x" "A"
    ∧ sampleCodec.GetPossibleClusters [⟨"A"⟩, ⟨"B"⟩] (sampleCodec.GenUniqueName "B" "svc1") =
        ["A", "B"]
    ∧ ((ServiceNamespaceLister.mk "x" (sampleRegistry true)).Get sampleCodec
        (sampleCodec.GenUniqueName "B" "svc1")).result =
      .ok (Object.service { svc1 with Name := "1-Bsvc1" }) :=
  ⟨by decide, rfl,
    C2_get_returns_own_cluster_object sampleCodec (sampleRegistry true) [⟨"A"⟩, ⟨"B"⟩] rfl
      ⟨"B"⟩ (listerOf [svc1]) rfl "x" [svc1] rfl svc1 (List.mem_singleton.mpr rfl)
      (fun other hother _ => List.mem_singleton.mp hother)
      unaryName_injective (by decide)⟩

/-- Instance of C3: no cluster holds a service whose unique name is `doesnotexist`, and
`Get` returns the typed not-found error. -/
theorem C3_get_not_found_witness :
    (sampleRegistry true).GetReadyClusters = .ok [⟨"A"⟩, ⟨"B"⟩]
    ∧ ((ServiceNamespaceLister.mk "x" (sampleRegistry true)).Get sampleCodec
        "doesnotexist").result = .error (Err.NotFound "service" "doesnotexist")
    ∧ ∀ e, ((ServiceNamespaceLister.mk "x" (sampleRegistry true)).Get sampleCodec
        "doesnotexist").result = .error e →
        e = Err.NotFound "service" "doesnotexist" ∧ e.IsNotFound = true :=
  ⟨rfl, rfl,
    (C3_get_not_found sampleCodec (sampleRegistry true) [⟨"A"⟩, ⟨"B"⟩] rfl "x"
      "doesnotexist").2⟩

/-- Instance of C4: with a registry that cannot enumerate its ready clusters, the three
operations return the registry's error after the single call `GetReadyClusters`. -/
theorem C4_registry_failure_only_witness :
    failingRegistry.GetReadyClusters = .error (Err.Other "no cluster lister")
    ∧ (ServiceLister.mk failingRegistry).List sampleCodec labels_Everything =
        ⟨[RegistryCall.GetReadyClusters], .error (Err.Other "no cluster lister")⟩
    ∧ (ServiceNamespaceLister.mk "x" failingRegistry).List sampleCodec labels_Everything =
        ⟨[RegistryCall.GetReadyClusters], .error (Err.Other "no cluster lister")⟩
    ∧ (ServiceNamespaceLister.mk "x" failingRegistry).Get sampleCodec "1-Asvc1" =
        ⟨[RegistryCall.GetReadyClusters], .error (Err.Other "no cluster lister")⟩ :=
  ⟨rfl,
    (C4_registry_failure_only sampleCodec failingRegistry "x" "1-Asvc1" labels_Everything).1
      (Err.Other "no cluster lister") rfl⟩

/-- The function `splitChars` returns at least one piece. -/
theorem splitChars_ne_nil (sep : Char) (l : List Char) :
    ∃ piece pieces, splitChars sep l = piece :: pieces := by
  induction l with
  | nil => exact ⟨[], [], rfl⟩
  | cons ch rest ih =>
    obtain ⟨piece, pieces, h⟩ := ih
    by_cases hc : ch = sep
    · exact ⟨[], splitChars sep rest, by simp [splitChars, hc]⟩
    · exact ⟨ch :: piece, pieces, by simp [splitChars, hc, h]⟩

/-- There is one more piece than there are separators. -/
theorem splitChars_length (sep : Char) (l : List Char) :
    (splitChars sep l).length = l.count sep + 1 := by
  induction l with
  | nil => rfl
  | cons ch rest ih =>
    obtain ⟨piece, pieces, h⟩ := splitChars_ne_nil sep rest
    by_cases hc : ch = sep
    · simp [splitChars, hc, ih]
    · rw [h] at ih
      simp only [List.length_cons, Nat.add_right_cancel_iff] at ih
      simp [splitChars, hc, h, List.count_cons, ih]

/-- A list without separator is its own single piece. -/
theorem splitChars_no_sep (sep : Char) (l : List Char) (h : sep ∉ l) :
    splitChars sep l = [l] := by
  induction l with
  | nil => rfl
  | cons ch rest ih =>
    have hc : ch ≠ sep := fun heq => h (by simp [heq])
    have hrest : sep ∉ rest := fun hmem => h (List.mem_cons_of_mem _ hmem)
    simp [splitChars, hc, ih hrest]

/-- The first piece ends at the first separator. -/
theorem splitChars_at_sep (sep : Char) (a b : List Char) (h : sep ∉ a) :
    splitChars sep (a ++ sep :: b) = a :: splitChars sep b := by
  induction a with
  | nil => simp [splitChars]
  | cons ch rest ih =>
    have hc : ch ≠ sep := fun heq => h (by simp [heq])
    have hrest : sep ∉ rest := fun hmem => h (List.mem_cons_of_mem _ hmem)
    simp [splitChars, hc, ih hrest]

/-- A list with exactly one separator is two lists without separator around it. -/
theorem exists_split_of_count_one (sep : Char) (l : List Char) (h : l.count sep = 1) :
    ∃ a b, sep ∉ a ∧ sep ∉ b ∧ l = a ++ sep :: b := by
  induction l with
  | nil => simp at h
  | cons ch rest ih =>
    by_cases hc : ch = sep
    · subst hc
      have hzero : rest.count ch = 0 := by simpa [List.count_cons] using h
      exact ⟨[], rest, by simp, List.count_eq_zero.mp hzero, rfl⟩
    · have hrest : rest.count sep = 1 := by simpa [List.count_cons, hc] using h
      obtain ⟨a, b, ha, hb, hl⟩ := ih hrest
      refine ⟨ch :: a, b, ?_, hb, by simp [hl]⟩
      intro hmem
      rcases List.mem_cons.mp hmem with h1 | h1
      · exact hc h1.symm
      · exact ha h1

/-- Two lists without separator around one separator contain it once. -/
theorem count_sep_of_split (sep : Char) (a b : List Char) (ha : sep ∉ a) (hb : sep ∉ b) :
    (a ++ sep :: b).count sep = 1 := by
  simp [List.count_append, List.count_cons, List.count_eq_zero.mpr ha, List.count_eq_zero.mpr hb]

/-- The pieces of a name of the form `ns/n`. -/
theorem split_slash_of_parts (ns n : String) (hns : '/' ∉ ns.data) (hn : '/' ∉ n.data) :
    strings_Split_slash (ns ++ "/" ++ n) = [ns, n] := by
  unfold strings_Split_slash
  have hdata : (ns ++ "/" ++ n).data = ns.data ++ '/' :: n.data := by
    simp [String.data_append]
  rw [hdata, splitChars_at_sep '/' _ _ hns, splitChars_no_sep '/' _ hn]
  rfl

/-- The number of pieces of a name. -/
theorem split_slash_length (name : String) :
    (strings_Split_slash name).length = name.data.count '/' + 1 := by
  simp [strings_Split_slash, splitChars_length]

/-- A name with exactly one slash is of the form `ns/n`. -/
theorem name_parts_of_count_one (name : String) (h : name.data.count '/' = 1) :
    ∃ ns n : String, '/' ∉ ns.data ∧ '/' ∉ n.data ∧ name = ns ++ "/" ++ n := by
  obtain ⟨a, b, ha, hb, hl⟩ := exists_split_of_count_one '/' name.data h
  refine ⟨String.mk a, String.mk b, ha, hb, ?_⟩
  apply String.ext
  simp [String.data_append, hl]

/-- The method `ServiceNamespaceLister.Get` always calls the registry. -/
theorem namespaced_get_calls_ne_nil (c : Codec) (s : ServiceNamespaceLister) (name : String) :
    (s.Get c name).calls ≠ [] := by
  unfold ServiceNamespaceLister.Get
  rcases hready : s.federatedInformerManager.GetReadyClusters with err | clusters
  · simp
  · obtain ⟨more, hmore⟩ := getLoop_calls c s name (c.GetPossibleClusters clusters name)
      [RegistryCall.GetReadyClusters]
    simp [hmore]

/-- The method `ServiceLister.Get` on a name that does not have exactly one slash. -/
theorem get_malformed (c : Codec) (s : ServiceLister) (name : String)
    (h : name.data.count '/' ≠ 1) :
    s.Get c name = ⟨[], .error (Err.BadRequest ("invalid name " ++ c.Quote name))⟩ := by
  have hlen := split_slash_length name
  unfold ServiceLister.Get
  rcases hs : strings_Split_slash name with _ | ⟨a, _ | ⟨b, _ | ⟨d, r⟩⟩⟩
  · rfl
  · rfl
  · rw [hs] at hlen
    simp at hlen
    exact absurd hlen h
  · rfl

/-- C5: `ServiceLister.Get(name)` returns the typed bad-request error without any registry
call, and it does so exactly, when `name` does not consist of two parts separated by a
single "/" (that is, when it does not contain exactly one "/"); for a name `ns/n` its
outcome is that of `ByNamespace(ns).Get(n)`, whose only errors are the error of
`GetReadyClusters` and the not-found error. -/
theorem C5_get_splits_name (c : Codec) (m : FederatedInformerManager) (name : String) :
    (name.data.count '/' ≠ 1 →
      (ServiceLister.mk m).Get c name =
          ⟨[], .error (Err.BadRequest ("invalid name " ++ c.Quote name))⟩
      ∧ (Err.BadRequest ("invalid name " ++ c.Quote name)).IsBadRequest = true
      ∧ (Err.BadRequest ("invalid name " ++ c.Quote name)).IsNotFound = false)
    ∧ (∀ ns n : String, '/' ∉ ns.data → '/' ∉ n.data →
        (ServiceLister.mk m).Get c (ns ++ "/" ++ n) = ((ServiceLister.mk m).ByNamespace ns).Get c n)
    ∧ ((∃ message, (ServiceLister.mk m).Get c name = ⟨[], .error (Err.BadRequest message)⟩) ↔
        name.data.count '/' ≠ 1)
    ∧ (name.data.count '/' = 1 ↔
        ∃ ns n : String, '/' ∉ ns.data ∧ '/' ∉ n.data ∧ name = ns ++ "/" ++ n)
    ∧ (∀ ns n : String, '/' ∉ ns.data → '/' ∉ n.data →
        ∀ e, ((ServiceLister.mk m).Get c (ns ++ "/" ++ n)).result = .error e →
          m.GetReadyClusters = .error e ∨ e = Err.NotFound "service" n) := by
  have hparts : ∀ ns n : String, '/' ∉ ns.data → '/' ∉ n.data →
      (ServiceLister.mk m).Get c (ns ++ "/" ++ n) =
        ((ServiceLister.mk m).ByNamespace ns).Get c n := by
    intro ns n hns hn
    unfold ServiceLister.Get
    rw [split_slash_of_parts ns n hns hn]
  refine ⟨?_, hparts, ?_, ?_, ?_⟩
  · intro h
    exact ⟨get_malformed c ⟨m⟩ name h, rfl, rfl⟩
  · constructor
    · rintro ⟨message, hget⟩ hone
      obtain ⟨ns, n, hns, hn, hname⟩ := name_parts_of_count_one name hone
      rw [hname, hparts ns n hns hn] at hget
      have hcalls := namespaced_get_calls_ne_nil c ((ServiceLister.mk m).ByNamespace ns) n
      rw [hget] at hcalls
      exact hcalls rfl
    · intro h
      exact ⟨_, get_malformed c ⟨m⟩ name h⟩
  · constructor
    · exact name_parts_of_count_one name
    · rintro ⟨ns, n, hns, hn, hname⟩
      rw [hname]
      have hdata : (ns ++ "/" ++ n).data = ns.data ++ '/' :: n.data := by
        simp [String.data_append]
      rw [hdata]
      exact count_sep_of_split '/' _ _ hns hn
  · intro ns n hns hn e he
    rw [hparts ns n hns hn] at he
    unfold ServiceNamespaceLister.Get ServiceLister.ByNamespace at he
    rcases hready : m.GetReadyClusters with err | clusters
    · simp only [hready] at he
      injection he with he
      exact Or.inl (by rw [he])
    · simp only [hready] at he
      exact Or.inr (getLoop_error c _ n _ _ e he)

/-- Instance of C5: names with no slash or with two slashes are rejected with the
bad-request error, and `x/1-Bsvc1` is looked up in namespace `x`. -/
theorem C5_get_splits_name_witness :
    (ServiceLister.mk (sampleRegistry true)).Get sampleCodec "svc1" =
        ⟨[], .error (Err.BadRequest "invalid name \"svc1\"")⟩
    ∧ (ServiceLister.mk (sampleRegistry true)).Get sampleCodec "x/y/svc1" =
        ⟨[], .error (Err.BadRequest "invalid name \"x/y/svc1\"")⟩
    ∧ (ServiceLister.mk (sampleRegistry true)).Get sampleCodec ("x" ++ "/" ++ "1-Bsvc1") =
        ((ServiceLister.mk (sampleRegistry true)).ByNamespace "x").Get sampleCodec "1-Bsvc1" :=
  ⟨((C5_get_splits_name sampleCodec (sampleRegistry true) "svc1").1 (by decide)).1,
    ((C5_get_splits_name sampleCodec (sampleRegistry true) "x/y/svc1").1 (by decide)).1,
    (C5_get_splits_name sampleCodec (sampleRegistry true) "svc1").2.1 "x" "1-Bsvc1"
      (by decide) (by decide)⟩

/-! ## Properties of the REST adapter -/

/-- The function `convertAndFilterServiceObject` keeps the services, in order. -/
theorem convertAndFilter_eq (objs : ObjectSlice) (selector : FieldSelector) :
    convertAndFilterServiceObject objs selector = objs.filterMap asService := by
  unfold convertAndFilterServiceObject
  have hgen : ∀ (l acc : ObjectSlice) (svcs : ServiceSlice),
      l.foldl (fun newObjs obj =>
        match obj with
        | .service svc => newObjs ++ [svc]
        | .other _ _ => newObjs) svcs = svcs ++ l.filterMap asService := by
    intro l
    induction l with
    | nil => intro _ svcs; simp
    | cons obj rest ih =>
      intro acc svcs
      cases obj with
      | service svc => simp [ih acc, asService]
      | other kind payload => simp [ih acc, asService]
  simpa using hgen objs [] []

/-- C6: `ServiceREST.Get` asks the lister for the name in the namespace of the request
context; it returns the lister's object when the lister succeeds, the lister's error
itself when that error is a not-found error, and otherwise no object and the lister's
error wrapped with the context "failed getting service". -/
theorem C6_rest_get (s : ServiceREST) (ctx : Context) (name : String)
    (opts : Option GetOptions) :
    (∀ obj, (s.serviceLister.ByNamespace (NamespaceValue ctx)).Get name = .ok obj →
      s.Get ctx name opts = .ok obj)
    ∧ (∀ err, (s.serviceLister.ByNamespace (NamespaceValue ctx)).Get name = .error err →
        err.IsNotFound = true → s.Get ctx name opts = .error err)
    ∧ (∀ err, (s.serviceLister.ByNamespace (NamespaceValue ctx)).Get name = .error err →
        err.IsNotFound = false →
        s.Get ctx name opts = .error (Err.Wrapped "failed getting service" err)) := by
  refine ⟨?_, ?_, ?_⟩
  · intro obj h
    simp [ServiceREST.Get, h]
  · intro err h hnf
    simp [ServiceREST.Get, h, hnf]
  · intro err h hnf
    simp [ServiceREST.Get, h, hnf]

/-- Instance of C6 over the aggregated lister: an existing object is returned, the
not-found error of an unknown name is passed on unchanged, and the error of a failing
registry is wrapped. -/
theorem C6_rest_get_witness :
    (restOver sampleCodec (sampleRegistry true)).Get ⟨"x"⟩ "1-Bsvc1" none =
        .ok (Object.service { svc1 with Name := "1-Bsvc1" })
    ∧ (restOver sampleCodec (sampleRegistry true)).Get ⟨"x"⟩ "doesnotexist" none =
        .error (Err.NotFound "service" "doesnotexist")
    ∧ (restOver sampleCodec failingRegistry).Get ⟨"x"⟩ "1-Bsvc1" none =
        .error (Err.Wrapped "failed getting service" (Err.Other "no cluster lister")) :=
  ⟨(C6_rest_get (restOver sampleCodec (sampleRegistry true)) ⟨"x"⟩ "1-Bsvc1" none).1 _ rfl,
    (C6_rest_get (restOver sampleCodec (sampleRegistry true)) ⟨"x"⟩ "doesnotexist" none).2.1
      _ rfl rfl,
    (C6_rest_get (restOver sampleCodec failingRegistry) ⟨"x"⟩ "1-Bsvc1" none).2.2 _ rfl rfl⟩

/-- C7: when the lister call succeeds with `objs`, `ServiceREST.List` returns, with no
error, the `ServiceList` whose items are the services among `objs`, in order (objects of
another type are dropped); the lister is called for the namespace of the request context
with the selector "everything" when the options or their label selector are absent, and
with the supplied label selector otherwise. -/
theorem C7_rest_list (s : ServiceREST) (ctx : Context) (label : Selector)
    (field : Option FieldSelector) (objs : ObjectSlice) :
    ((s.serviceLister.ByNamespace (NamespaceValue ctx)).List labels_Everything = .ok objs →
      s.List ctx none = .ok { Items := objs.filterMap asService }
      ∧ s.List ctx (some { LabelSelector := none, FieldSelector := field }) =
          .ok { Items := objs.filterMap asService })
    ∧ ((s.serviceLister.ByNamespace (NamespaceValue ctx)).List label = .ok objs →
      s.List ctx (some { LabelSelector := some label, FieldSelector := field }) =
          .ok { Items := objs.filterMap asService })
    ∧ (∀ svc rest, (Object.service svc :: rest).filterMap asService =
        svc :: rest.filterMap asService)
    ∧ (∀ kind payload rest, (Object.other kind payload :: rest).filterMap asService =
        rest.filterMap asService) := by
  refine ⟨?_, ?_, ?_, ?_⟩
  · intro h
    constructor
    · simp [ServiceREST.List, labelOf, h, convertAndFilter_eq]
    · simp [ServiceREST.List, labelOf, h, convertAndFilter_eq]
  · intro h
    simp [ServiceREST.List, labelOf, h, convertAndFilter_eq]
  · intro svc rest
    simp [asService]
  · intro kind payload rest
    simp [asService]

/-- Instance of C7: an object that is not a service is dropped and the order is kept. -/
theorem C7_rest_list_witness :
    (ServiceREST.mk (genericListerOf
        [Object.service svc2, Object.other "Pod" "p", Object.service svc1])
      failingRegistry 0).List ⟨"x"⟩ none = .ok { Items := [svc2, svc1] } :=
  ((C7_rest_list (ServiceREST.mk (genericListerOf
        [Object.service svc2, Object.other "Pod" "p", Object.service svc1])
      failingRegistry 0) ⟨"x"⟩ labels_Everything none
      [Object.service svc2, Object.other "Pod" "p", Object.service svc1]).1 rfl).1

/-! ## Properties of the watch fan-in -/

/-- The value of an updated function at the updated index. -/
theorem setAt_same {α : Type} (f : Nat → α) (i : Nat) (v : α) : setAt f i v i = v := by
  simp [setAt]

/-- The value of an updated function at another index. -/
theorem setAt_other {α : Type} (f : Nat → α) (i j : Nat) (v : α) (h : j ≠ i) :
    setAt f i v j = f j := by
  simp [setAt, h]

/-- Relabelling keeps the type of an event, makes a carried service unique for the given
cluster, and leaves an event carrying another object as it is. -/
theorem relabel_spec (c : Codec) (cluster : String) (event : Event) :
    (relabel c cluster event).Type_ = event.Type_
    ∧ (∀ svc, event.Object = Object.service svc →
        (relabel c cluster event).Object = Object.service (c.MakeObjectUnique svc cluster))
    ∧ (∀ kind payload, event.Object = Object.other kind payload →
        relabel c cluster event = event) := by
  unfold relabel
  refine ⟨?_, ?_, ?_⟩
  · cases event.Object <;> rfl
  · intro svc h
    simp [h]
  · intro kind payload h
    simp [h]

/-- The initial state satisfies the invariant. -/
theorem inv_init (c : Codec) (clusters : StringSlice) : (Session.init clusters).Inv c := by
  constructor <;> simp [Session.init, Session.forwarded, Location.holdsLock, Location.pending]

/-- A step that moves worker `i` to `target` and sets the lock holder, touching nothing
else, keeps the invariant when the new location agrees with the new holder and with the
state of the channel. -/
theorem inv_relocate (c : Codec) (s : Session) (i : Nat) (target : Location)
    (holder : Option Nat) (hinv : s.Inv c)
    (hlockIff : ∀ j, (setAt s.location i target j).holdsLock = true ↔ holder = some j)
    (hsend : ∀ event, target = Location.sending event → s.isProxyChClosed = false)
    (hcheck : target ≠ Location.checkForClose)
    (hwait : target = Location.lockForClose → i ∈ s.observedEnd)
    (hleave : s.location i = Location.checkForClose → s.isProxyChClosed = true)
    (hpending : s.isProxyChClosed = false → target.pending = (s.location i).pending) :
    ({ s with lock := holder, location := setAt s.location i target } : Session).Inv c := by
  constructor
  · exact hinv.noPanic
  · exact hinv.flagEq
  · exact hlockIff
  · intro j event hloc
    by_cases hj : j = i
    · subst hj
      simp only [setAt_same] at hloc
      exact hsend event hloc
    · simp only [setAt_other _ _ _ _ hj] at hloc
      exact hinv.sendingOpen j event hloc
  · exact hinv.enteredObserved
  · intro j hloc
    by_cases hj : j = i
    · subst hj
      simp only [setAt_same] at hloc
      exact hwait hloc
    · simp only [setAt_other _ _ _ _ hj] at hloc
      exact hinv.waitingObserved j hloc
  · intro j hloc
    by_cases hj : j = i
    · subst hj
      simp only [setAt_same] at hloc
      exact absurd hloc hcheck
    · simp only [setAt_other _ _ _ _ hj] at hloc
      exact hinv.checkEntered j hloc
  · intro hopen
    obtain ⟨hclosed, hentered⟩ := hinv.openClose hopen
    refine ⟨hclosed, ?_⟩
    rcases hentered with hnil | ⟨j, hj, hloc⟩
    · exact Or.inl hnil
    · refine Or.inr ⟨j, hj, ?_⟩
      by_cases hji : j = i
      · subst hji
        have hflag : s.isProxyChClosed = false := hopen
        rw [hleave hloc] at hflag
        exact absurd hflag (by simp)
      · simp only [setAt_other _ _ _ _ hji]
        exact hloc
  · exact hinv.closedClose
  · intro hopen j
    by_cases hj : j = i
    · subst hj
      simp only [setAt_same, hpending hopen]
      exact hinv.pendingEq hopen j
    · simp only [setAt_other _ _ _ _ hj]
      exact hinv.pendingEq hopen j
  · exact hinv.forwardedPrefix

/-- A step that only moves worker `i` between two locations that both hold the lock, or
both do not, keeps the invariant. -/
theorem inv_move (c : Codec) (s : Session) (i : Nat) (target : Location) (hinv : s.Inv c)
    (hlock : target.holdsLock = (s.location i).holdsLock)
    (hsend : ∀ event, target = Location.sending event → s.isProxyChClosed = false)
    (hcheck : target ≠ Location.checkForClose)
    (hwait : target = Location.lockForClose → i ∈ s.observedEnd)
    (hleave : s.location i = Location.checkForClose → s.isProxyChClosed = true)
    (hpending : s.isProxyChClosed = false → target.pending = (s.location i).pending) :
    ({ s with location := setAt s.location i target } : Session).Inv c := by
  refine inv_relocate c s i target s.lock hinv ?_ hsend hcheck hwait hleave hpending
  intro j
  by_cases hj : j = i
  · subst hj
    simp only [setAt_same, hlock]
    exact hinv.lockIff j
  · simp only [setAt_other _ _ _ _ hj]
    exact hinv.lockIff j

/-- Taking the lock: worker `i` moves to `target`, which holds the lock, while the lock is
free. -/
theorem inv_lock (c : Codec) (s : Session) (i : Nat) (target : Location) (hinv : s.Inv c)
    (hfree : s.lock = none) (hheld : target.holdsLock = true)
    (hsend : ∀ event, target = Location.sending event → s.isProxyChClosed = false)
    (hcheck : target ≠ Location.checkForClose)
    (hpending : s.isProxyChClosed = false → target.pending = (s.location i).pending) :
    ({ s with lock := some i, location := setAt s.location i target } : Session).Inv c := by
  refine inv_relocate c s i target (some i) hinv ?_ hsend hcheck ?_ ?_ hpending
  · intro j
    by_cases hj : j = i
    · subst hj
      simp [setAt_same, hheld]
    · simp only [setAt_other _ _ _ _ hj]
      have h := hinv.lockIff j
      rw [hfree] at h
      constructor
      · intro hl
        exact absurd (h.mp hl) (by simp)
      · intro hl
        injection hl with hl
        exact absurd hl.symm hj
  · intro ht
    rw [ht] at hheld
    simp [Location.holdsLock] at hheld
  · intro hloc
    have h := (hinv.lockIff i).mp (by rw [hloc]; rfl)
    rw [hfree] at h
    exact absurd h (by simp)

/-- Releasing the lock: worker `i`, which holds the lock, moves to `target`, which does
not. -/
theorem inv_unlock (c : Codec) (s : Session) (i : Nat) (target : Location) (hinv : s.Inv c)
    (hholds : (s.location i).holdsLock = true) (hfree : target.holdsLock = false)
    (hwait : target ≠ Location.lockForClose)
    (hleave : s.location i ≠ Location.checkForClose)
    (hpending : target.pending = (s.location i).pending) :
    ({ s with lock := none, location := setAt s.location i target } : Session).Inv c := by
  refine inv_relocate c s i target none hinv ?_ ?_ ?_ (fun h => absurd h hwait)
    (fun h => absurd h hleave) (fun _ => hpending)
  · intro j
    by_cases hj : j = i
    · subst hj
      simp [setAt_same, hfree]
    · simp only [setAt_other _ _ _ _ hj]
      have hi := (hinv.lockIff i).mp hholds
      have h := hinv.lockIff j
      rw [hi] at h
      constructor
      · intro hl
        have := h.mp hl
        injection this with this
        exact absurd this.symm hj
      · intro hl
        exact absurd hl (by simp)
  · intro event ht
    rw [ht] at hfree
    simp [Location.holdsLock] at hfree
  · intro ht
    rw [ht] at hfree
    simp [Location.holdsLock] at hfree

/-- Recording that worker `i` found its upstream ended keeps the invariant. -/
theorem inv_observe (c : Codec) (s : Session) (i : Nat) (hinv : s.Inv c) :
    ({ s with observedEnd := s.observedEnd ++ [i] } : Session).Inv c := by
  constructor
  · exact hinv.noPanic
  · exact hinv.flagEq
  · exact hinv.lockIff
  · exact hinv.sendingOpen
  · intro j hj
    exact List.mem_append_left _ (hinv.enteredObserved j hj)
  · intro j hj
    exact List.mem_append_left _ (hinv.waitingObserved j hj)
  · exact hinv.checkEntered
  · exact hinv.openClose
  · exact hinv.closedClose
  · exact hinv.pendingEq
  · exact hinv.forwardedPrefix

/-- Taking an event from the upstream channel (lines 199 and 211-214) keeps the
invariant. -/
theorem inv_upstreamEvent (c : Codec) (s : Session) (i : Nat) (event : Event)
    (hinv : s.Inv c) (hloc : s.location i = Location.atSelect) :
    ({ s with
        received := setAt s.received i (s.received i ++ [event])
        location := setAt s.location i
          (Location.lockForSend (relabel c (s.cluster i) event)) } : Session).Inv c := by
  have hne : ∀ j, s.location j = Location.checkForClose → j ≠ i := by
    intro j hj hji
    rw [hji, hloc] at hj
    exact absurd hj (by simp)
  constructor
  · exact hinv.noPanic
  · exact hinv.flagEq
  · intro j
    by_cases hj : j = i
    · subst hj
      have h := hinv.lockIff j
      rw [hloc] at h
      simpa [setAt_same, Location.holdsLock] using h
    · simp only [setAt_other _ _ _ _ hj]
      exact hinv.lockIff j
  · intro j ev hj
    by_cases hji : j = i
    · subst hji
      simp [setAt_same] at hj
    · simp only [setAt_other _ _ _ _ hji] at hj
      exact hinv.sendingOpen j ev hj
  · exact hinv.enteredObserved
  · intro j hj
    by_cases hji : j = i
    · subst hji
      simp [setAt_same] at hj
    · simp only [setAt_other _ _ _ _ hji] at hj
      exact hinv.waitingObserved j hj
  · intro j hj
    by_cases hji : j = i
    · subst hji
      simp [setAt_same] at hj
    · simp only [setAt_other _ _ _ _ hji] at hj
      exact hinv.checkEntered j hj
  · intro hopen
    obtain ⟨hclosed, hentered⟩ := hinv.openClose hopen
    refine ⟨hclosed, ?_⟩
    rcases hentered with hnil | ⟨j, hj, hlj⟩
    · exact Or.inl hnil
    · refine Or.inr ⟨j, hj, ?_⟩
      simp only [setAt_other _ _ _ _ (hne j hlj)]
      exact hlj
  · exact hinv.closedClose
  · intro hopen j
    have hold := hinv.pendingEq hopen j
    by_cases hj : j = i
    · subst hj
      rw [hloc] at hold
      simp only [Location.pending, List.append_nil] at hold
      show s.forwarded j ++ (setAt s.location j _ j).pending =
        (setAt s.received j _ j).map (relabel c (s.cluster j))
      simp only [setAt_same, Location.pending, List.map_append, List.map_cons, List.map_nil, hold]
    · show s.forwarded j ++ (setAt s.location i _ j).pending =
        (setAt s.received i _ j).map (relabel c (s.cluster j))
      simp only [setAt_other _ _ _ _ hj]
      exact hold
  · intro j
    have hold := hinv.forwardedPrefix j
    by_cases hj : j = i
    · subst hj
      show s.forwarded j <+: (setAt s.received j _ j).map (relabel c (s.cluster j))
      simp only [setAt_same, List.map_append]
      exact hold.trans (List.prefix_append _ _)
    · show s.forwarded j <+: (setAt s.received i _ j).map (relabel c (s.cluster j))
      simp only [setAt_other _ _ _ _ hj]
      exact hold

/-- Taking the lock at line 201 keeps the invariant. -/
theorem inv_enterClose (c : Codec) (s : Session) (i : Nat) (hinv : s.Inv c)
    (hloc : s.location i = Location.lockForClose) (hfree : s.lock = none) :
    ({ s with
        lock := some i
        enteredClose := s.enteredClose ++ [i]
        location := setAt s.location i Location.checkForClose } : Session).Inv c := by
  have hnone : ∀ j, (s.location j).holdsLock = true → False := by
    intro j hj
    have h := (hinv.lockIff j).mp hj
    rw [hfree] at h
    exact absurd h (by simp)
  constructor
  · exact hinv.noPanic
  · exact hinv.flagEq
  · intro j
    by_cases hj : j = i
    · subst hj
      simp [setAt_same, Location.holdsLock]
    · simp only [setAt_other _ _ _ _ hj]
      constructor
      · intro hl
        exact absurd hl (fun h => hnone j h)
      · intro hl
        injection hl with hl
        exact absurd hl.symm hj
  · intro j ev hj
    by_cases hji : j = i
    · subst hji
      simp [setAt_same] at hj
    · simp only [setAt_other _ _ _ _ hji] at hj
      exact hinv.sendingOpen j ev hj
  · intro j hj
    rcases List.mem_append.mp hj with h | h
    · exact hinv.enteredObserved j h
    · rw [List.mem_singleton.mp h]
      exact hinv.waitingObserved i hloc
  · intro j hj
    by_cases hji : j = i
    · subst hji
      simp [setAt_same] at hj
    · simp only [setAt_other _ _ _ _ hji] at hj
      exact hinv.waitingObserved j hj
  · intro j hj
    by_cases hji : j = i
    · subst hji
      exact List.mem_append_right _ (List.mem_singleton.mpr rfl)
    · simp only [setAt_other _ _ _ _ hji] at hj
      exact List.mem_append_left _ (hinv.checkEntered j hj)
  · intro hopen
    obtain ⟨hclosed, hentered⟩ := hinv.openClose hopen
    refine ⟨hclosed, ?_⟩
    rcases hentered with hnil | ⟨j, _, hlj⟩
    · refine Or.inr ⟨i, ?_, ?_⟩
      · show s.enteredClose ++ [i] = [i]
        rw [hnil]
        rfl
      · show setAt s.location i Location.checkForClose i = Location.checkForClose
        exact setAt_same _ _ _
    · exact absurd (by rw [hlj]; rfl) (fun h => hnone j h)
  · intro hclosed
    obtain ⟨k, rest, hk, hby⟩ := hinv.closedClose hclosed
    refine ⟨k, rest ++ [i], ?_, hby⟩
    show s.enteredClose ++ [i] = k :: (rest ++ [i])
    rw [hk]
    rfl
  · intro hopen j
    have hold := hinv.pendingEq hopen j
    by_cases hj : j = i
    · subst hj
      rw [hloc] at hold
      show s.forwarded j ++ (setAt s.location j _ j).pending = _
      simp only [setAt_same]
      exact hold
    · show s.forwarded j ++ (setAt s.location i _ j).pending = _
      simp only [setAt_other _ _ _ _ hj]
      exact hold
  · exact hinv.forwardedPrefix

/-- Closing the channel at lines 202-205, when the flag is not set, keeps the invariant. -/
theorem inv_close (c : Codec) (s : Session) (i : Nat) (hinv : s.Inv c)
    (hloc : s.location i = Location.checkForClose) (hopen : s.isProxyChClosed = false) :
    ({ s with
        proxyChClosed := true
        isProxyChClosed := true
        closedBy := s.closedBy ++ [i]
        location := setAt s.location i Location.unlockAfterClose } : Session).Inv c := by
  have hholder : s.lock = some i := (hinv.lockIff i).mp (by rw [hloc]; rfl)
  constructor
  · exact hinv.noPanic
  · rfl
  · intro j
    by_cases hj : j = i
    · subst hj
      simp [setAt_same, Location.holdsLock, hholder]
    · simp only [setAt_other _ _ _ _ hj]
      exact hinv.lockIff j
  · intro j ev hj
    by_cases hji : j = i
    · subst hji
      simp [setAt_same] at hj
    · simp only [setAt_other _ _ _ _ hji] at hj
      have h := (hinv.lockIff j).mp (by rw [hj]; rfl)
      rw [hholder] at h
      injection h with h
      exact absurd h.symm hji
  · exact hinv.enteredObserved
  · intro j hj
    by_cases hji : j = i
    · subst hji
      simp [setAt_same] at hj
    · simp only [setAt_other _ _ _ _ hji] at hj
      exact hinv.waitingObserved j hj
  · intro j hj
    by_cases hji : j = i
    · subst hji
      simp [setAt_same] at hj
    · simp only [setAt_other _ _ _ _ hji] at hj
      exact hinv.checkEntered j hj
  · intro h
    exact absurd h (by simp)
  · intro _
    obtain ⟨hclosed, hentered⟩ := hinv.openClose hopen
    have hmem := hinv.checkEntered i hloc
    rcases hentered with hnil | ⟨j, hj, _⟩
    · rw [hnil] at hmem
      exact absurd hmem (by simp)
    · rw [hj] at hmem
      have hij : i = j := List.mem_singleton.mp hmem
      refine ⟨i, [], ?_, ?_⟩
      · show s.enteredClose = [i]
        rw [hj, hij]
      · show s.closedBy ++ [i] = [i]
        rw [hclosed]
        rfl
  · intro h
    exact absurd h (by simp)
  · exact hinv.forwardedPrefix

/-- What worker `j` has forwarded after the consumer received an event from worker `i`. -/
theorem forwarded_receive (s : Session) (i j : Nat) (event : Event) :
    ({ s with delivered := s.delivered ++ [(i, event)] } : Session).forwarded j =
      if j = i then s.forwarded j ++ [event] else s.forwarded j := by
  unfold Session.forwarded
  by_cases hj : j = i
  · subst hj
    simp [List.filter_append]
  · have hne : ¬ i = j := fun h => hj h.symm
    simp [List.filter_append, hj, hne]

/-- The consumer receiving the event worker `i` is sending (line 218) keeps the
invariant. -/
theorem inv_receive (c : Codec) (s : Session) (i : Nat) (event : Event) (hinv : s.Inv c)
    (hloc : s.location i = Location.sending event) :
    ({ s with
        delivered := s.delivered ++ [(i, event)]
        location := setAt s.location i Location.unlockAfterSend } : Session).Inv c := by
  have hholder : s.lock = some i := (hinv.lockIff i).mp (by rw [hloc]; rfl)
  have hopen : s.isProxyChClosed = false := hinv.sendingOpen i event hloc
  have hfwd : ∀ j, ({ s with
        delivered := s.delivered ++ [(i, event)]
        location := setAt s.location i Location.unlockAfterSend } : Session).forwarded j =
      if j = i then s.forwarded j ++ [event] else s.forwarded j :=
    fun j => forwarded_receive s i j event
  have hne : ∀ j, s.location j = Location.checkForClose → j ≠ i := by
    intro j hj hji
    rw [hji, hloc] at hj
    exact absurd hj (by simp)
  have hall : ∀ j, ({ s with
        delivered := s.delivered ++ [(i, event)]
        location := setAt s.location i Location.unlockAfterSend } : Session).forwarded j ++
        (setAt s.location i Location.unlockAfterSend j).pending =
      (s.received j).map (relabel c (s.cluster j)) := by
    intro j
    have hold := hinv.pendingEq hopen j
    rw [hfwd j]
    by_cases hj : j = i
    · subst hj
      rw [hloc] at hold
      simp only [setAt_same, Location.pending, List.append_nil, if_true]
      exact hold
    · simp only [setAt_other _ _ _ _ hj, hj, if_false]
      exact hold
  constructor
  · exact hinv.noPanic
  · exact hinv.flagEq
  · intro j
    by_cases hj : j = i
    · subst hj
      simp [setAt_same, Location.holdsLock, hholder]
    · simp only [setAt_other _ _ _ _ hj]
      exact hinv.lockIff j
  · intro j ev hj
    by_cases hji : j = i
    · subst hji
      simp [setAt_same] at hj
    · simp only [setAt_other _ _ _ _ hji] at hj
      exact hinv.sendingOpen j ev hj
  · exact hinv.enteredObserved
  · intro j hj
    by_cases hji : j = i
    · subst hji
      simp [setAt_same] at hj
    · simp only [setAt_other _ _ _ _ hji] at hj
      exact hinv.waitingObserved j hj
  · intro j hj
    by_cases hji : j = i
    · subst hji
      simp [setAt_same] at hj
    · simp only [setAt_other _ _ _ _ hji] at hj
      exact hinv.checkEntered j hj
  · intro h
    obtain ⟨hclosed, hentered⟩ := hinv.openClose h
    refine ⟨hclosed, ?_⟩
    rcases hentered with hnil | ⟨j, hj, hlj⟩
    · exact Or.inl hnil
    · refine Or.inr ⟨j, hj, ?_⟩
      simp only [setAt_other _ _ _ _ (hne j hlj)]
      exact hlj
  · exact hinv.closedClose
  · intro _ j
    exact hall j
  · intro j
    have h := hall j
    exact ⟨_, h⟩

/-- The statement executed by `advance i` keeps the invariant. -/
theorem inv_advance (c : Codec) (s t : Session) (i : Nat) (hinv : s.Inv c)
    (h : s.advance i = some t) : t.Inv c := by
  unfold Session.advance at h
  split at h
  · rename_i hloc
    split at h
    · rename_i hflag
      have hopen : s.isProxyChClosed = false := by simpa using hflag
      split at h
      · rename_i hch
        rw [← hinv.flagEq, hopen] at hch
        exact absurd hch (by simp)
      · injection h with h
        subst h
        exact inv_close c s i hinv hloc hopen
    · rename_i hflag
      have hclosed : s.isProxyChClosed = true := by simpa using hflag
      injection h with h
      subst h
      exact inv_move c s i Location.unlockAfterClose hinv (by rw [hloc]; rfl)
        (fun _ ht => by simp at ht) (by simp) (fun ht => by simp at ht) (fun _ => hclosed)
        (fun _ => by rw [hloc]; rfl)
  · rename_i hloc
    injection h with h
    subst h
    exact inv_unlock c s i Location.returned hinv (by rw [hloc]; rfl) rfl (by simp)
      (by rw [hloc]; simp) (by rw [hloc]; rfl)
  · rename_i event hloc
    split at h
    · rename_i hflag
      have hopen : s.isProxyChClosed = false := by simpa using hflag
      injection h with h
      subst h
      exact inv_move c s i (Location.sending event) hinv (by rw [hloc]; rfl)
        (fun _ _ => hopen) (by simp) (fun ht => by simp at ht)
        (fun hl => by rw [hloc] at hl; simp at hl) (fun _ => by rw [hloc]; rfl)
    · rename_i hflag
      have hclosed : s.isProxyChClosed = true := by simpa using hflag
      injection h with h
      subst h
      exact inv_move c s i Location.unlockAfterSend hinv (by rw [hloc]; rfl)
        (fun _ ht => by simp at ht) (by simp) (fun ht => by simp at ht)
        (fun hl => by rw [hloc] at hl; simp at hl)
        (fun hopen => by rw [hclosed] at hopen; simp at hopen)
  · rename_i event hloc
    split at h
    · rename_i hch
      have hopen := hinv.sendingOpen i event hloc
      rw [hinv.flagEq, hch] at hopen
      exact absurd hopen (by simp)
    · exact absurd h (by simp)
  · rename_i hloc
    injection h with h
    subst h
    exact inv_unlock c s i Location.atSelect hinv (by rw [hloc]; rfl) rfl (by simp)
      (by rw [hloc]; simp) (by rw [hloc]; rfl)
  · exact absurd h (by simp)

/-- Every step keeps the invariant. -/
theorem inv_step (c : Codec) (s t : Session) (a : Action) (hinv : s.Inv c)
    (h : s.step c a = some t) : t.Inv c := by
  cases a with
  | stop =>
    simp only [Session.step] at h
    split at h
    · exact absurd h (by simp)
    · injection h with h
      subst h
      exact ⟨hinv.noPanic, hinv.flagEq, hinv.lockIff, hinv.sendingOpen, hinv.enteredObserved,
        hinv.waitingObserved, hinv.checkEntered, hinv.openClose, hinv.closedClose,
        hinv.pendingEq, hinv.forwardedPrefix⟩
  | stopSignal i =>
    simp only [Session.step] at h
    split at h
    · exact absurd h (by simp)
    · split at h
      · rename_i hloc
        split at h
        · injection h with h
          subst h
          exact inv_move c s i Location.returned hinv (by rw [hloc]; rfl)
            (fun _ ht => by simp at ht) (by simp) (fun ht => by simp at ht)
            (fun hl => by rw [hloc] at hl; simp at hl) (fun _ => by rw [hloc]; rfl)
        · exact absurd h (by simp)
      · exact absurd h (by simp)
  | upstreamEvent i event =>
    simp only [Session.step] at h
    split at h
    · exact absurd h (by simp)
    · split at h
      · rename_i hloc
        injection h with h
        subst h
        exact inv_upstreamEvent c s i event hinv hloc
      · exact absurd h (by simp)
  | upstreamEnd i =>
    simp only [Session.step] at h
    split at h
    · exact absurd h (by simp)
    · split at h
      · rename_i hloc
        injection h with h
        subst h
        exact inv_move c { s with observedEnd := s.observedEnd ++ [i] } i Location.lockForClose
          (inv_observe c s i hinv) (by show _ = (s.location i).holdsLock; rw [hloc]; rfl)
          (fun _ ht => by simp at ht) (by simp)
          (fun _ => List.mem_append_right _ (List.mem_singleton.mpr rfl))
          (fun hl => by
            have hl2 : s.location i = Location.checkForClose := hl
            rw [hloc] at hl2
            simp at hl2)
          (fun _ => by show _ = (s.location i).pending; rw [hloc]; rfl)
      · exact absurd h (by simp)
  | acquire i =>
    simp only [Session.step] at h
    split at h
    · exact absurd h (by simp)
    · rename_i hguard
      have hfree : s.lock = none := by
        simp only [Bool.or_eq_true, not_or] at hguard
        have := hguard.2
        cases hl : s.lock with
        | none => rfl
        | some k => simp [hl] at this
      split at h
      · rename_i hloc
        injection h with h
        subst h
        exact inv_enterClose c s i hinv hloc hfree
      · rename_i event hloc
        injection h with h
        subst h
        exact inv_lock c s i (Location.checkForSend event) hinv hfree rfl
          (fun _ ht => by simp at ht) (by simp) (fun _ => by rw [hloc]; rfl)
      · exact absurd h (by simp)
  | advance i =>
    simp only [Session.step] at h
    split at h
    · exact absurd h (by simp)
    · exact inv_advance c s t i hinv h
  | receive i =>
    simp only [Session.step] at h
    split at h
    · exact absurd h (by simp)
    · split at h
      · rename_i event hloc
        injection h with h
        subst h
        exact inv_receive c s i event hinv hloc
      · exact absurd h (by simp)

/-- Every state reached from a state satisfying the invariant satisfies it. -/
theorem inv_run (c : Codec) (actions : List Action) (s t : Session) (hinv : s.Inv c)
    (h : s.run c actions = some t) : t.Inv c := by
  induction actions generalizing s with
  | nil =>
    simp only [Session.run] at h
    injection h with h
    subst h
    exact hinv
  | cons a rest ih =>
    simp only [Session.run] at h
    split at h
    · exact absurd h (by simp)
    · rename_i u hu
      exact ih u (inv_step c s u a hinv hu) h

/-- Every reachable state satisfies the invariant. -/
theorem inv_reachable (c : Codec) (clusters : StringSlice) (s : Session)
    (h : s.Reachable c clusters) : s.Inv c := by
  obtain ⟨actions, hrun⟩ := h
  exact inv_run c actions _ _ (inv_init c clusters) hrun

/-- A step changes neither the number of workers nor their clusters. -/
theorem step_frame (c : Codec) (s t : Session) (a : Action) (h : s.step c a = some t) :
    t.workers = s.workers ∧ t.cluster = s.cluster := by
  cases a <;> simp only [Session.step, Session.advance] at h <;> (repeat' split at h) <;>
    cases h <;> exact ⟨rfl, rfl⟩

/-- Once the channel is closed, a step neither reopens it, nor closes it again, nor
delivers an event. -/
theorem closed_step (c : Codec) (s t : Session) (a : Action) (hinv : s.Inv c)
    (hclosed : s.proxyChClosed = true) (h : s.step c a = some t) :
    t.proxyChClosed = true ∧ t.closedBy = s.closedBy ∧ t.delivered = s.delivered := by
  have hflag : s.isProxyChClosed = true := by rw [hinv.flagEq]; exact hclosed
  cases a <;> simp only [Session.step, Session.advance] at h <;> (repeat' split at h) <;>
    cases h <;>
    first
    | exact ⟨hclosed, rfl, rfl⟩
    | simp_all

/-- A step does not move a worker that does not exist. -/
theorem step_location_out_of_range (c : Codec) (s t : Session) (a : Action)
    (h : s.step c a = some t) (j : Nat) (hj : s.workers ≤ j) :
    t.location j = s.location j := by
  cases a <;> simp only [Session.step, Session.advance] at h <;> (repeat' split at h) <;>
    cases h <;>
    first
    | rfl
    | (show setAt s.location _ _ j = s.location j
       simp only [setAt]
       split
       · simp_all
       · rfl)

/-- A run changes neither the number of workers nor their clusters. -/
theorem run_frame (c : Codec) (actions : List Action) (s t : Session)
    (h : s.run c actions = some t) : t.workers = s.workers ∧ t.cluster = s.cluster := by
  induction actions generalizing s with
  | nil =>
    simp only [Session.run] at h
    cases h
    exact ⟨rfl, rfl⟩
  | cons a rest ih =>
    simp only [Session.run] at h
    split at h
    · exact absurd h (by simp)
    · rename_i u hu
      obtain ⟨h1, h2⟩ := step_frame c s u a hu
      obtain ⟨h3, h4⟩ := ih u h
      exact ⟨h3.trans h1, h4.trans h2⟩

/-- In a state reached from a state where no missing worker has moved, no missing worker
has moved. -/
theorem range_run (c : Codec) (actions : List Action) (s t : Session)
    (hrange : ∀ j, s.workers ≤ j → s.location j = Location.atSelect)
    (h : s.run c actions = some t) :
    ∀ j, t.workers ≤ j → t.location j = Location.atSelect := by
  induction actions generalizing s with
  | nil =>
    simp only [Session.run] at h
    cases h
    exact hrange
  | cons a rest ih =>
    simp only [Session.run] at h
    split at h
    · exact absurd h (by simp)
    · rename_i u hu
      refine ih u ?_ h
      intro j hj
      rw [(step_frame c s u a hu).1] at hj
      rw [step_location_out_of_range c s u a hu j hj]
      exact hrange j hj

/-- Once the channel is closed, no run reopens it, closes it again, delivers an event, or
panics. -/
theorem closed_run (c : Codec) (actions : List Action) (s t : Session) (hinv : s.Inv c)
    (hclosed : s.proxyChClosed = true) (h : s.run c actions = some t) :
    t.panicked = none ∧ t.proxyChClosed = true ∧ t.closedBy = s.closedBy
      ∧ t.delivered = s.delivered := by
  induction actions generalizing s with
  | nil =>
    simp only [Session.run] at h
    cases h
    exact ⟨hinv.noPanic, hclosed, rfl, rfl⟩
  | cons a rest ih =>
    simp only [Session.run] at h
    split at h
    · exact absurd h (by simp)
    · rename_i u hu
      obtain ⟨h1, h2, h3⟩ := closed_step c s u a hinv hclosed hu
      obtain ⟨h4, h5, h6, h7⟩ := ih u (inv_step c s u a hinv hu) h1 h
      exact ⟨h4, h5, h6.trans h2, h7.trans h3⟩

/-- In a reachable state every worker that has left its initial location exists. -/
theorem reachable_in_range (c : Codec) (clusters : StringSlice) (s : Session)
    (h : s.Reachable c clusters) (i : Nat) (hloc : s.location i ≠ Location.atSelect) :
    i < s.workers := by
  obtain ⟨actions, hrun⟩ := h
  by_contra hlt
  exact hloc (range_run c actions _ _ (fun _ _ => rfl) hrun i (Nat.le_of_not_lt hlt))

/-- The sample state after actions that can be executed is reachable. -/
theorem sampleAfter_reachable (actions : List Action)
    (h : ((Session.init ["A", "B"]).run sampleCodec actions).isSome = true) :
    (sampleAfter actions).Reachable sampleCodec ["A", "B"] := by
  unfold sampleAfter
  cases hrun : (Session.init ["A", "B"]).run sampleCodec actions with
  | none =>
    rw [hrun] at h
    exact absurd h (by simp)
  | some t => exact ⟨actions, hrun⟩

/-- The claim C8 as stated fails: worker 0 is the first to find its upstream ended, worker
1 finds its own ended next and takes the lock first, and it is worker 1 that closes the
channel. -/
theorem C8_closer_is_not_first_observer :
    ((Session.init ["A", "B"]).run sampleCodec
        [Action.upstreamEnd 0, Action.upstreamEnd 1, Action.acquire 1, Action.advance 1]).map
      (fun s => (s.observedEnd, s.closedBy, s.proxyChClosed)) = some ([0, 1], [1], true)
    ∧ ¬ (∀ s : Session, s.Reachable sampleCodec ["A", "B"] →
          ∀ i ∈ s.closedBy, s.observedEnd.head? = some i) := by
  refine ⟨by decide, ?_⟩
  intro hall
  have h := hall
    (sampleAfter [Action.upstreamEnd 0, Action.upstreamEnd 1, Action.acquire 1, Action.advance 1])
    (sampleAfter_reachable _ (by decide)) 1 (by decide)
  exact absurd h (by decide)

/-- C8 (amended): in every reachable state of a watch session, with any number of workers,
no panic has occurred (no close of a closed channel, no send on a closed channel); the
channel has been closed at most once, and exactly once when it is closed; it was closed by
a worker that had found its upstream ended, the first worker to take the lock at line 201;
a worker at line 202 that finds the flag unset closes the channel whatever the other
workers are doing, and as soon as some worker has gone past line 202 the channel is closed;
and once the channel is closed no worker is in the send statement and no further run
closes the channel again, delivers an event or panics. -/
theorem C8_closed_at_most_once (c : Codec) (clusters : StringSlice) (s : Session)
    (h : s.Reachable c clusters) :
    s.panicked = none
    ∧ s.closedBy.length ≤ 1
    ∧ (s.proxyChClosed = true ↔ s.closedBy.length = 1)
    ∧ (∀ i ∈ s.closedBy, i ∈ s.observedEnd ∧ s.enteredClose.head? = some i)
    ∧ (∀ i, s.location i = Location.checkForClose → s.proxyChClosed = false →
        ∃ t, s.step c (Action.advance i) = some t ∧ t.proxyChClosed = true ∧ t.closedBy = [i])
    ∧ (∀ i ∈ s.enteredClose, s.location i ≠ Location.checkForClose →
        s.proxyChClosed = true ∧ s.closedBy.length = 1)
    ∧ (s.proxyChClosed = true →
        (∀ i event, s.location i ≠ Location.sending event)
        ∧ ∀ actions t, s.run c actions = some t →
            t.panicked = none ∧ t.proxyChClosed = true ∧ t.closedBy = s.closedBy
              ∧ t.delivered = s.delivered) := by
  have hinv := inv_reachable c clusters s h
  have hcases : (s.isProxyChClosed = false ∧ s.closedBy = []) ∨
      (s.isProxyChClosed = true ∧ ∃ i rest, s.enteredClose = i :: rest ∧ s.closedBy = [i]) := by
    cases hflag : s.isProxyChClosed with
    | false => exact Or.inl ⟨rfl, (hinv.openClose hflag).1⟩
    | true => exact Or.inr ⟨rfl, hinv.closedClose hflag⟩
  refine ⟨hinv.noPanic, ?_, ?_, ?_, ?_, ?_, ?_⟩
  · rcases hcases with ⟨_, hby⟩ | ⟨_, i, rest, _, hby⟩ <;> simp [hby]
  · rw [← hinv.flagEq]
    rcases hcases with ⟨hflag, hby⟩ | ⟨hflag, i, rest, _, hby⟩ <;> simp [hflag, hby]
  · intro i hi
    rcases hcases with ⟨_, hby⟩ | ⟨_, k, rest, hentered, hby⟩
    · rw [hby] at hi
      exact absurd hi (by simp)
    · rw [hby] at hi
      have hik : i = k := List.mem_singleton.mp hi
      subst hik
      refine ⟨hinv.enteredObserved i (by rw [hentered]; exact List.mem_cons_self _ _), ?_⟩
      rw [hentered]
      rfl
  · intro i hloc hopen
    have hflag : s.isProxyChClosed = false := by rw [hinv.flagEq]; exact hopen
    have hrange : i < s.workers :=
      reachable_in_range c clusters s h i (by rw [hloc]; simp)
    have hby := (hinv.openClose hflag).1
    refine ⟨{ s with
        proxyChClosed := true
        isProxyChClosed := true
        closedBy := s.closedBy ++ [i]
        location := setAt s.location i Location.unlockAfterClose }, ?_, rfl, ?_⟩
    · simp [Session.step, Session.advance, hinv.noPanic, hrange, hloc, hflag, hopen]
    · show s.closedBy ++ [i] = [i]
      rw [hby]
      rfl
  · intro i hi hloc
    rcases hcases with ⟨hflag, _⟩ | ⟨hflag, k, rest, _, hby⟩
    · rcases (hinv.openClose hflag).2 with hnil | ⟨j, hj, hlj⟩
      · rw [hnil] at hi
        exact absurd hi (by simp)
      · rw [hj] at hi
        rw [List.mem_singleton.mp hi] at hloc
        exact absurd hlj hloc
    · exact ⟨by rw [← hinv.flagEq]; exact hflag, by rw [hby]; rfl⟩
  · intro hclosed
    have hflag : s.isProxyChClosed = true := by rw [hinv.flagEq]; exact hclosed
    refine ⟨?_, fun actions t hrun => closed_run c actions s t hinv hclosed hrun⟩
    intro i event hloc
    have := hinv.sendingOpen i event hloc
    rw [hflag] at this
    exact absurd this (by simp)

/-- Instance of C8: after worker 0 has found its upstream ended and run its critical
section, the channel is closed, once, by worker 0, and a later run in which worker 1 takes
an event and reaches its own check delivers nothing and closes nothing. -/
theorem C8_closed_at_most_once_witness :
    (sampleAfter [Action.upstreamEnd 0, Action.acquire 0, Action.advance 0,
        Action.advance 0]).closedBy = [0]
    ∧ (sampleAfter [Action.upstreamEnd 0, Action.acquire 0, Action.advance 0,
        Action.advance 0]).closedBy.length ≤ 1
    ∧ (sampleAfter [Action.upstreamEnd 0, Action.acquire 0, Action.advance 0,
        Action.advance 0, Action.upstreamEvent 1 sampleEvent, Action.acquire 1,
        Action.advance 1, Action.advance 1]).delivered =
      (sampleAfter [Action.upstreamEnd 0, Action.acquire 0, Action.advance 0,
        Action.advance 0]).delivered :=
  ⟨by decide,
    (C8_closed_at_most_once sampleCodec ["A", "B"]
      (sampleAfter [Action.upstreamEnd 0, Action.acquire 0, Action.advance 0, Action.advance 0])
      (sampleAfter_reachable _ (by decide))).2.1,
    (((C8_closed_at_most_once sampleCodec ["A", "B"]
      (sampleAfter [Action.upstreamEnd 0, Action.acquire 0, Action.advance 0, Action.advance 0])
      (sampleAfter_reachable _ (by decide))).2.2.2.2.2.2 (by decide)).2
        [Action.upstreamEvent 1 sampleEvent, Action.acquire 1, Action.advance 1,
          Action.advance 1]
        (sampleAfter [Action.upstreamEnd 0, Action.acquire 0, Action.advance 0,
          Action.advance 0, Action.upstreamEvent 1 sampleEvent, Action.acquire 1,
          Action.advance 1, Action.advance 1]) rfl).2.2.2⟩

/-- C9: in every reachable state of a watch session over `clusters`, the events the worker
of the `i`-th cluster has forwarded to the outward channel are a prefix of the events it
has taken from its upstream watch, in the same order, each relabelled for that worker's
own cluster: the event type is kept, a carried service is made unique with that cluster's
name by `MakeObjectUnique`, and an event carrying another object is forwarded unchanged. -/
theorem C9_forwarded_prefix_of_received (c : Codec) (clusters : StringSlice) (s : Session)
    (h : s.Reachable c clusters) (i : Nat) :
    s.forwarded i <+: (s.received i).map (relabel c (clusters.getD i ""))
    ∧ s.cluster i = clusters.getD i ""
    ∧ (∀ event,
        (relabel c (clusters.getD i "") event).Type_ = event.Type_
        ∧ (∀ svc, event.Object = Object.service svc →
            (relabel c (clusters.getD i "") event).Object =
              Object.service (c.MakeObjectUnique svc (clusters.getD i "")))
        ∧ (∀ kind payload, event.Object = Object.other kind payload →
            relabel c (clusters.getD i "") event = event)) := by
  have hinv := inv_reachable c clusters s h
  obtain ⟨actions, hrun⟩ := h
  have hcluster : s.cluster i = clusters.getD i "" := by
    rw [(run_frame c actions _ _ hrun).2]
    rfl
  refine ⟨?_, hcluster, fun event => relabel_spec c _ event⟩
  rw [← hcluster]
  exact hinv.forwardedPrefix i

/-- Instance of C9: the worker of `B` takes two events and the consumer receives the
first; what it has forwarded is that event with the service made unique for `B`. -/
theorem C9_forwarded_prefix_of_received_witness :
    (sampleAfter [Action.upstreamEvent 1 sampleEvent, Action.acquire 1, Action.advance 1,
        Action.receive 1, Action.advance 1,
        Action.upstreamEvent 1 ⟨EventType.Deleted, Object.service svc1⟩]).forwarded 1 =
      [⟨EventType.Added, Object.service { svc1 with Name := "1-Bsvc1" }⟩]
    ∧ (sampleAfter [Action.upstreamEvent 1 sampleEvent, Action.acquire 1, Action.advance 1,
        Action.receive 1, Action.advance 1,
        Action.upstreamEvent 1 ⟨EventType.Deleted, Object.service svc1⟩]).forwarded 1 <+:
      ((sampleAfter [Action.upstreamEvent 1 sampleEvent, Action.acquire 1, Action.advance 1,
        Action.receive 1, Action.advance 1,
        Action.upstreamEvent 1 ⟨EventType.Deleted, Object.service svc1⟩]).received 1).map
        (relabel sampleCodec "B") :=
  ⟨by decide,
    (C9_forwarded_prefix_of_received sampleCodec ["A", "B"]
      (sampleAfter [Action.upstreamEvent 1 sampleEvent, Action.acquire 1, Action.advance 1,
        Action.receive 1, Action.advance 1,
        Action.upstreamEvent 1 ⟨EventType.Deleted, Object.service svc1⟩])
      (sampleAfter_reachable _ (by decide)) 1).1⟩

/-- The claim C10 as stated fails: worker 0 has taken an event and the lock and stands in
the send statement, waiting for the consumer, while it holds the lock; worker 1, whose
upstream has ended, cannot take the lock, and worker 0 cannot go on by itself. -/
theorem C10_lock_is_held_while_sending :
    ((Session.init ["A", "B"]).run sampleCodec
        [Action.upstreamEvent 0 sampleEvent, Action.upstreamEnd 1, Action.acquire 0,
          Action.advance 0]).map
      (fun s => (s.location 0, s.location 1, s.lock,
        (s.step sampleCodec (Action.acquire 1)).isSome,
        (s.step sampleCodec (Action.advance 0)).isSome)) =
      some (Location.sending (relabel sampleCodec "A" sampleEvent), Location.lockForClose,
        some 0, false, false)
    ∧ ¬ (∀ s : Session, s.Reachable sampleCodec ["A", "B"] →
          ∀ i event, s.location i = Location.sending event → s.lock ≠ some i) := by
  refine ⟨by decide, ?_⟩
  intro hall
  exact hall
    (sampleAfter [Action.upstreamEvent 0 sampleEvent, Action.upstreamEnd 1, Action.acquire 0,
      Action.advance 0])
    (sampleAfter_reachable _ (by decide)) 0 (relabel sampleCodec "A" sampleEvent) (by decide)
    (by decide)

/-- C10 (amended): in every reachable state of a watch session the lock is held by a
worker exactly while that worker is inside its check-and-close or check-and-send section,
and the send on the outward channel is part of the latter: a worker in the send statement
holds the lock, the channel being open it stays there until the consumer receives, no
worker can take the lock meanwhile, the consumer receiving lets it go on to the unlock,
and at most one worker is in the send statement. -/
theorem C10_lock_held_across_send (c : Codec) (clusters : StringSlice) (s : Session)
    (h : s.Reachable c clusters) :
    (∀ i, s.lock = some i ↔ (s.location i).holdsLock = true)
    ∧ (∀ i event, s.location i = Location.sending event →
        s.lock = some i
        ∧ s.proxyChClosed = false
        ∧ s.step c (Action.advance i) = none
        ∧ (∀ j, s.step c (Action.acquire j) = none)
        ∧ ∃ t, s.step c (Action.receive i) = some t
            ∧ t.location i = Location.unlockAfterSend ∧ t.lock = some i)
    ∧ (∀ i j event1 event2, s.location i = Location.sending event1 →
        s.location j = Location.sending event2 → i = j) := by
  have hinv := inv_reachable c clusters s h
  have hholder : ∀ i event, s.location i = Location.sending event → s.lock = some i := by
    intro i event hloc
    exact (hinv.lockIff i).mp (by rw [hloc]; rfl)
  refine ⟨fun i => (hinv.lockIff i).symm, ?_, ?_⟩
  · intro i event hloc
    have hlock := hholder i event hloc
    have hopen : s.proxyChClosed = false := by
      rw [← hinv.flagEq]
      exact hinv.sendingOpen i event hloc
    have hrange : i < s.workers :=
      reachable_in_range c clusters s h i (by rw [hloc]; simp)
    refine ⟨hlock, hopen, ?_, ?_, ?_⟩
    · simp [Session.step, Session.advance, hloc, hopen]
    · intro j
      simp [Session.step, hlock]
    · refine ⟨{ s with
          delivered := s.delivered ++ [(i, event)]
          location := setAt s.location i Location.unlockAfterSend }, ?_, ?_, hlock⟩
      · simp [Session.step, hinv.noPanic, hrange, hopen, hloc]
      · exact setAt_same _ _ _
  · intro i j event1 event2 hi hj
    have h1 := hholder i event1 hi
    have h2 := hholder j event2 hj
    rw [h1] at h2
    injection h2

/-- Instance of C10: in the state where worker 0 stands in the send statement, it holds
the lock and worker 1 cannot take it. -/
theorem C10_lock_held_across_send_witness :
    (sampleAfter [Action.upstreamEvent 0 sampleEvent, Action.upstreamEnd 1, Action.acquire 0,
        Action.advance 0]).lock = some 0
    ∧ (sampleAfter [Action.upstreamEvent 0 sampleEvent, Action.upstreamEnd 1, Action.acquire 0,
        Action.advance 0]).step sampleCodec (Action.acquire 1) = none :=
  ⟨((C10_lock_held_across_send sampleCodec ["A", "B"]
      (sampleAfter [Action.upstreamEvent 0 sampleEvent, Action.upstreamEnd 1, Action.acquire 0,
        Action.advance 0])
      (sampleAfter_reachable _ (by decide))).2.1 0 (relabel sampleCodec "A" sampleEvent)
        (by decide)).1,
    ((C10_lock_held_across_send sampleCodec ["A", "B"]
      (sampleAfter [Action.upstreamEvent 0 sampleEvent, Action.upstreamEnd 1, Action.acquire 0,
        Action.advance 0])
      (sampleAfter_reachable _ (by decide))).2.1 0 (relabel sampleCodec "A" sampleEvent)
        (by decide)).2.2.2.1 1⟩

/-- A watch session returned by `ServiceREST.Watch` starts in the initial state over the
clusters for which a worker was spawned. -/
theorem watch_returns_initial_session (s : ServiceREST) (ctx : Context)
    (options : Option ListOptions) (session : Session)
    (h : s.Watch ctx options = WatchResult.watcher session) :
    ∃ spawned, session = Session.init spawned := by
  unfold ServiceREST.Watch at h
  cases options with
  | none => simp at h
  | some opts =>
    simp only at h
    split at h
    · simp at h
    · split at h
      · simp at h
      · rename_i spawned _
        injection h with h
        exact ⟨spawned, h.symm⟩

/-! ## Properties of the aggregated lister over a store -/

/-- Reading below the length of a store is not affected by cells allocated later. -/
theorem read_append_lt (objects ext : ServiceSlice) (p : Address) (hp : p < objects.length) :
    (Store.mk (objects ++ ext)).read p = (Store.mk objects).read p := by
  simp [Store.read, List.getD_eq_getElem?_getD, List.getElem?_append_left hp]

/-- Reading the cells allocated after `objects`. -/
theorem read_range_append (objects ext : ServiceSlice) :
    (List.range' objects.length ext.length).map (Store.mk (objects ++ ext)).read = ext := by
  apply List.ext_getElem
  · simp
  · intro i h1 h2
    simp [Store.read, List.getD_eq_getElem?_getD, List.getElem?_append_right,
      List.getElem?_eq_getElem h2]

/-- Copying the object at `p`, making the copy unique and appending it allocates one cell,
holding the object made unique, and touches no other cell. -/
theorem appendUniqueCopy_eq (c : Codec) (clusterName : String) (h : Store)
    (ret : AddressSlice) (p : Address) :
    InStore.appendUniqueCopy c clusterName (h, ret) p =
      (⟨h.objects ++ [c.MakeObjectUnique (h.read p) clusterName]⟩, ret ++ [h.objects.length]) := by
  simp [InStore.appendUniqueCopy, Store.DeepCopy, Store.MakeObjectUnique, Store.read,
    List.getD_eq_getElem?_getD]

/-- The loop of lines 73-77 (and 112-116) allocates one cell per listed object and returns
the addresses of these cells; when the listed addresses are addresses of `objects`, the
new cells hold the listed objects made unique. -/
theorem foldl_appendUniqueCopy (c : Codec) (clusterName : String) (svcs : AddressSlice)
    (objects : ServiceSlice) (ret : AddressSlice) :
    ∃ ext, ext.length = svcs.length
      ∧ svcs.foldl (InStore.appendUniqueCopy c clusterName) (⟨objects⟩, ret) =
          (⟨objects ++ ext⟩, ret ++ List.range' objects.length ext.length)
      ∧ ((∀ q ∈ svcs, q < objects.length) →
          ext = svcs.map (fun q => c.MakeObjectUnique ((Store.mk objects).read q) clusterName)) := by
  induction svcs generalizing objects ret with
  | nil => exact ⟨[], rfl, by simp, fun _ => rfl⟩
  | cons q rest ih =>
    obtain ⟨ext, hlen, hfold, hval⟩ :=
      ih (objects ++ [c.MakeObjectUnique ((Store.mk objects).read q) clusterName])
        (ret ++ [objects.length])
    refine ⟨c.MakeObjectUnique ((Store.mk objects).read q) clusterName :: ext, by simp [hlen],
      ?_, ?_⟩
    · rw [List.foldl_cons, appendUniqueCopy_eq, hfold]
      simp [List.range'_succ, Nat.add_comm]
    · intro hvalid
      have hq : q < objects.length := hvalid q (List.mem_cons_self _ _)
      have hrest : ∀ r ∈ rest, r < objects.length :=
        fun r hr => hvalid r (List.mem_cons_of_mem _ hr)
      have hrest2 : ∀ r ∈ rest, r <
          (objects ++ [c.MakeObjectUnique ((Store.mk objects).read q) clusterName]).length := by
        intro r hr
        have := hrest r hr
        rw [List.length_append, List.length_singleton]
        exact Nat.lt_succ_of_lt this
      rw [hval hrest2]
      simp only [List.map_cons, List.cons.injEq, true_and]
      apply List.map_congr_left
      intro r hr
      rw [read_append_lt objects _ r (hrest r hr)]

/-- The cluster loop of `ServiceLister.List` meets the iteration specification. -/
theorem listIteration_all_spec (c : Codec) (s : InStore.ServiceLister) (selector : Selector) :
    InStore.IterationSpec c s.federatedInformerManager (fun l => l.List selector)
      (s.listIteration c selector) := by
  intro objects ret cluster
  unfold InStore.ServiceLister.listIteration
  rcases hm : s.federatedInformerManager.GetResourceListerFromFactory cluster.Name
    with _ | ⟨l, b⟩
  · exact ⟨[], by simp, fun h0 pre _ _ => by simp [contribution, InStore.view, hm]⟩
  · cases b
    · refine ⟨[], by simp, fun h0 pre _ _ => ?_⟩
      cases l <;> simp [contribution, InStore.view, hm]
    · cases l with
      | otherLister =>
        exact ⟨[], by simp, fun h0 pre _ _ => by simp [contribution, InStore.view, hm]⟩
      | serviceLister l =>
        rcases hq : l.List ⟨objects⟩ selector with e | svcs
        · refine ⟨[], by simp [hq], fun h0 pre hobj hcache => ?_⟩
          have hstable := (hcache cluster.Name l true hm selector).1 pre
          rw [← hobj, hq] at hstable
          simp [contribution, InStore.view, hm, ← hstable, Except.map]
        · obtain ⟨ext, _, hfold, hval⟩ := foldl_appendUniqueCopy c cluster.Name svcs objects ret
          refine ⟨ext, by simp [hq, hfold], fun h0 pre hobj hcache => ?_⟩
          obtain ⟨hstable, hvalid, _, _⟩ := hcache cluster.Name l true hm selector
          have hq0 : l.List h0 selector = .ok svcs := by
            rw [← hstable pre, ← hobj]
            exact hq
          have hlt : ∀ q ∈ svcs, q < h0.objects.length := hvalid svcs hq0
          rw [hval (fun q hq' => by
            rw [hobj, List.length_append]
            exact Nat.lt_add_right _ (hlt q hq'))]
          simp only [contribution, InStore.view, hm, hq0, Except.map, List.map_map]
          apply List.map_congr_left
          intro q hq'
          simp only [Function.comp]
          rw [hobj, read_append_lt h0.objects pre q (hlt q hq')]

/-- The cluster loop of `ServiceNamespaceLister.List` meets the iteration specification. -/
theorem listIteration_namespaced_spec (c : Codec) (s : InStore.ServiceNamespaceLister)
    (selector : Selector) :
    InStore.IterationSpec c s.federatedInformerManager
      (fun l => l.Services s.namespace_ selector) (s.listIteration c selector) := by
  intro objects ret cluster
  unfold InStore.ServiceNamespaceLister.listIteration
  rcases hm : s.federatedInformerManager.GetResourceListerFromFactory cluster.Name
    with _ | ⟨l, b⟩
  · exact ⟨[], by simp, fun h0 pre _ _ => by simp [contribution, InStore.view, hm]⟩
  · cases b
    · refine ⟨[], by simp, fun h0 pre _ _ => ?_⟩
      cases l <;> simp [contribution, InStore.view, hm]
    · cases l with
      | otherLister =>
        exact ⟨[], by simp, fun h0 pre _ _ => by simp [contribution, InStore.view, hm]⟩
      | serviceLister l =>
        rcases hq : l.Services ⟨objects⟩ s.namespace_ selector with e | svcs
        · refine ⟨[], by simp [hq], fun h0 pre hobj hcache => ?_⟩
          have hstable := (hcache cluster.Name l true hm selector).2.2.1 pre s.namespace_
          rw [← hobj, hq] at hstable
          simp [contribution, InStore.view, hm, ← hstable, Except.map]
        · obtain ⟨ext, _, hfold, hval⟩ := foldl_appendUniqueCopy c cluster.Name svcs objects ret
          refine ⟨ext, by simp [hq, hfold], fun h0 pre hobj hcache => ?_⟩
          obtain ⟨_, _, hstable, hvalid⟩ := hcache cluster.Name l true hm selector
          have hq0 : l.Services h0 s.namespace_ selector = .ok svcs := by
            rw [← hstable pre s.namespace_, ← hobj]
            exact hq
          have hlt : ∀ q ∈ svcs, q < h0.objects.length := hvalid s.namespace_ svcs hq0
          rw [hval (fun q hq' => by
            rw [hobj, List.length_append]
            exact Nat.lt_add_right _ (hlt q hq'))]
          simp only [contribution, InStore.view, hm, hq0, Except.map, List.map_map]
          apply List.map_congr_left
          intro q hq'
          simp only [Function.comp]
          rw [hobj, read_append_lt h0.objects pre q (hlt q hq')]

/-- A cluster loop whose iteration meets the specification only adds cells, returns their
addresses, and, when the listers read the cache only, fills them with the concatenation
of the clusters' contributions. -/
theorem foldl_iteration_spec (c : Codec) (m : CachedInformerManager)
    (pureQuery : CoreServiceLister → Except Err ServiceSlice)
    (step : Store × AddressSlice → FederatedCluster → Store × AddressSlice)
    (hstep : InStore.IterationSpec c m pureQuery step) (clusters : ClusterSlice)
    (objects : ServiceSlice) (ret : AddressSlice) :
    ∃ ext, clusters.foldl step (⟨objects⟩, ret) =
        (⟨objects ++ ext⟩, ret ++ List.range' objects.length ext.length)
      ∧ (∀ h0 pre, objects = h0.objects ++ pre → InStore.ReadsCacheOnly h0 m →
          ext.map Object.service =
            (clusters.map (contribution c (InStore.view h0 m) pureQuery)).flatten) := by
  induction clusters generalizing objects ret with
  | nil => exact ⟨[], by simp, fun _ _ _ _ => rfl⟩
  | cons cluster rest ih =>
    obtain ⟨ext1, hfirst, hval1⟩ := hstep objects ret cluster
    obtain ⟨ext2, hrest, hval2⟩ :=
      ih (objects ++ ext1) (ret ++ List.range' objects.length ext1.length)
    refine ⟨ext1 ++ ext2, ?_, ?_⟩
    · rw [List.foldl_cons, hfirst, hrest]
      simp only [List.append_assoc, List.length_append, Prod.mk.injEq, true_and,
        List.append_cancel_left_eq]
      rw [Nat.add_comm ext1.length ext2.length, ← List.range'_append_1]
    · intro h0 pre hobj hcache
      rw [List.map_append, hval1 h0 pre hobj hcache,
        hval2 h0 (pre ++ ext1) (by rw [hobj, List.append_assoc]) hcache]
      simp

/-- Cells added after `objects` leave `objects` in place, and the addresses of the new
cells lie between the old and the new length. -/
theorem grown_frame (objects ext : ServiceSlice) :
    objects <+: objects ++ ext
    ∧ (∀ p, p < objects.length → (Store.mk (objects ++ ext)).read p = (Store.mk objects).read p)
    ∧ (∀ p ∈ List.range' objects.length ext.length,
        objects.length ≤ p ∧ p < (objects ++ ext).length) := by
  refine ⟨List.prefix_append _ _, fun p hp => read_append_lt objects ext p hp, ?_⟩
  intro p hp
  rw [List.mem_range'_1] at hp
  rw [List.length_append]
  exact hp

/-- The method `ServiceLister.List` over a store: the store grows by new cells and the
result is the addresses of these cells. -/
theorem list_all_in_store (c : Codec) (m : CachedInformerManager) (selector : Selector)
    (h : Store) :
    (∃ err, m.GetReadyClusters = .error err
        ∧ (InStore.ServiceLister.mk m).List c selector h = (h, .error err))
    ∨ (∃ clusters ext, m.GetReadyClusters = .ok clusters
        ∧ (InStore.ServiceLister.mk m).List c selector h =
            (⟨h.objects ++ ext⟩, .ok (List.range' h.objects.length ext.length))
        ∧ (InStore.ReadsCacheOnly h m →
            ext.map Object.service =
              (clusters.map (contribution c (InStore.view h m)
                (fun l => l.List selector))).flatten)) := by
  unfold InStore.ServiceLister.List
  rcases hready : m.GetReadyClusters with err | clusters
  · exact Or.inl ⟨err, rfl, rfl⟩
  · obtain ⟨ext, hfold, hval⟩ := foldl_iteration_spec c m _ _
      (listIteration_all_spec c ⟨m⟩ selector) clusters h.objects []
    refine Or.inr ⟨clusters, ext, rfl, ?_, fun hcache => hval h [] (by simp) hcache⟩
    simp only [hfold, List.nil_append]

/-- The method `ServiceNamespaceLister.List` over a store: the store grows by new cells
and the result is the addresses of these cells. -/
theorem list_namespaced_in_store (c : Codec) (m : CachedInformerManager)
    (namespace_ : String) (selector : Selector) (h : Store) :
    (∃ err, m.GetReadyClusters = .error err
        ∧ (InStore.ServiceNamespaceLister.mk namespace_ m).List c selector h = (h, .error err))
    ∨ (∃ clusters ext, m.GetReadyClusters = .ok clusters
        ∧ (InStore.ServiceNamespaceLister.mk namespace_ m).List c selector h =
            (⟨h.objects ++ ext⟩, .ok (List.range' h.objects.length ext.length))
        ∧ (InStore.ReadsCacheOnly h m →
            ext.map Object.service =
              (clusters.map (contribution c (InStore.view h m)
                (fun l => l.Services namespace_ selector))).flatten)) := by
  unfold InStore.ServiceNamespaceLister.List
  rcases hready : m.GetReadyClusters with err | clusters
  · exact Or.inl ⟨err, rfl, rfl⟩
  · obtain ⟨ext, hfold, hval⟩ := foldl_iteration_spec c m _ _
      (listIteration_namespaced_spec c ⟨namespace_, m⟩ selector) clusters h.objects []
    refine Or.inr ⟨clusters, ext, rfl, ?_, fun hcache => hval h [] (by simp) hcache⟩
    simp only [hfold, List.nil_append]

/-- The candidate loop of `ServiceNamespaceLister.Get` over a store either leaves the
store as it is and fails, or adds one cell, holding a listed object made unique, and
returns its address; seen as values, its result is that of the loop on values. -/
theorem getLoop_in_store (c : Codec) (m : CachedInformerManager) (namespace_ name : String)
    (h : Store) (candidates : StringSlice) (calls : CallLog) :
    ((InStore.ServiceNamespaceLister.mk namespace_ m).getLoop c name h candidates =
        (h, .error (Err.NotFound "service" name))
      ∨ ∃ p cluster, (InStore.ServiceNamespaceLister.mk namespace_ m).getLoop c name h candidates =
          (⟨h.objects ++ [c.MakeObjectUnique (h.read p) cluster]⟩, .ok h.objects.length))
    ∧ ((InStore.ServiceNamespaceLister.mk namespace_ m).getLoop c name h candidates).2.map
        (fun p => Object.service
          (((InStore.ServiceNamespaceLister.mk namespace_ m).getLoop c name h candidates).1.read p)) =
      ((ServiceNamespaceLister.mk namespace_ (InStore.view h m)).getLoop c name candidates
        calls).result := by
  induction candidates generalizing calls with
  | nil =>
    exact ⟨Or.inl rfl, by
      simp [InStore.ServiceNamespaceLister.getLoop, ServiceNamespaceLister.getLoop, Except.map]⟩
  | cons cluster rest ih =>
    rw [InStore.ServiceNamespaceLister.getLoop, ServiceNamespaceLister.getLoop]
    rcases hm : m.GetResourceListerFromFactory cluster with _ | ⟨l, b⟩
    · simpa [InStore.view, hm] using ih _
    · cases b
      · cases l <;> simpa [InStore.view, hm] using ih _
      · cases l with
        | otherLister => simpa [InStore.view, hm] using ih _
        | serviceLister l =>
          rcases hq : l.Services h namespace_ labels_Everything with e | svcs
          · simpa [InStore.view, hm, hq, Except.map] using ih _
          · simp only [InStore.view, hm, hq, Except.map, List.find?_map, Bool.not_true,
              Bool.false_eq_true, if_false]
            rcases hf : svcs.find? (fun p => name == c.GenUniqueName cluster (h.read p).Name)
              with _ | p
            · have hf2 : List.find?
                  ((fun svc : Service => name == c.GenUniqueName cluster svc.Name) ∘ h.read)
                  svcs = none := hf
              simp only [hf2, Option.map_none']
              exact ih _
            · have hf2 : List.find?
                  ((fun svc : Service => name == c.GenUniqueName cluster svc.Name) ∘ h.read)
                  svcs = some p := hf
              simp only [hf2, Option.map_some']
              refine ⟨Or.inr ⟨p, cluster, ?_⟩, ?_⟩
              · have := appendUniqueCopy_eq c cluster h [] p
                simp only [InStore.appendUniqueCopy, List.nil_append, Prod.mk.injEq] at this
                simp only [Prod.mk.injEq, this.1, true_and]
                rfl
              · have := appendUniqueCopy_eq c cluster h [] p
                simp only [InStore.appendUniqueCopy, List.nil_append, Prod.mk.injEq] at this
                rw [this.1]
                simp [Store.DeepCopy, Store.read, List.getD_eq_getElem?_getD]

/-- Growing a store by new cells and returning their addresses copies only. -/
theorem copiesOnly_grown (objects ext : ServiceSlice) :
    InStore.CopiesOnly ⟨objects⟩ ⟨objects ++ ext⟩ (List.range' objects.length ext.length) := by
  obtain ⟨h1, h2, h3⟩ := grown_frame objects ext
  exact ⟨h1, h2, List.nodup_range' _ _, h3⟩

/-- Returning nothing and leaving the store as it is copies only. -/
theorem copiesOnly_same (h : Store) : InStore.CopiesOnly h h [] :=
  ⟨List.prefix_refl _, fun _ _ => rfl, List.nodup_nil, fun _ hp => absurd hp (by simp)⟩

/-- C11: for every store, registry state, selector and name, `ServiceLister.List`,
`ServiceNamespaceLister.List` and `ServiceNamespaceLister.Get` leave every object that
existed before the call (so every object held by the per-cluster caches) unchanged, and
each object they return is a cell allocated during the call: `MakeObjectUnique` is applied
to the deep copy only. The object returned by `Get` is the one the operation on values
returns, and so are the objects returned by the two `List` methods when the listers read
the cache only. -/
theorem C11_cached_objects_unchanged (c : Codec) (m : CachedInformerManager)
    (namespace_ name : String) (selector : Selector) (h : Store) :
    InStore.CopiesOnly h ((InStore.ServiceLister.mk m).List c selector h).1
        (InStore.addressesOf ((InStore.ServiceLister.mk m).List c selector h).2)
    ∧ InStore.CopiesOnly h ((InStore.ServiceNamespaceLister.mk namespace_ m).List c selector h).1
        (InStore.addressesOf ((InStore.ServiceNamespaceLister.mk namespace_ m).List c selector h).2)
    ∧ InStore.CopiesOnly h ((InStore.ServiceNamespaceLister.mk namespace_ m).Get c name h).1
        (InStore.addressOf ((InStore.ServiceNamespaceLister.mk namespace_ m).Get c name h).2)
    ∧ ((InStore.ServiceNamespaceLister.mk namespace_ m).Get c name h).2.map
          (fun p => Object.service
            (((InStore.ServiceNamespaceLister.mk namespace_ m).Get c name h).1.read p)) =
        ((ServiceNamespaceLister.mk namespace_ (InStore.view h m)).Get c name).result
    ∧ (InStore.ReadsCacheOnly h m →
        InStore.objectsAt ((InStore.ServiceLister.mk m).List c selector h).1
            ((InStore.ServiceLister.mk m).List c selector h).2 =
          ((ServiceLister.mk (InStore.view h m)).List c selector).result
        ∧ InStore.objectsAt ((InStore.ServiceNamespaceLister.mk namespace_ m).List c selector h).1
            ((InStore.ServiceNamespaceLister.mk namespace_ m).List c selector h).2 =
          ((ServiceNamespaceLister.mk namespace_ (InStore.view h m)).List c selector).result) := by
  have hall := list_all_in_store c m selector h
  have hns := list_namespaced_in_store c m namespace_ selector h
  refine ⟨?_, ?_, ?_, ?_, ?_⟩
  · rcases hall with ⟨err, _, heq⟩ | ⟨clusters, ext, _, heq, _⟩
    · rw [heq]
      exact copiesOnly_same h
    · rw [heq]
      exact copiesOnly_grown h.objects ext
  · rcases hns with ⟨err, _, heq⟩ | ⟨clusters, ext, _, heq, _⟩
    · rw [heq]
      exact copiesOnly_same h
    · rw [heq]
      exact copiesOnly_grown h.objects ext
  · unfold InStore.ServiceNamespaceLister.Get
    rcases hready : m.GetReadyClusters with err | clusters
    · exact copiesOnly_same h
    · rcases (getLoop_in_store c m namespace_ name h (c.GetPossibleClusters clusters name) []).1
        with heq | ⟨p, cluster, heq⟩
      · simp only [heq]
        exact copiesOnly_same h
      · simp only [heq]
        exact copiesOnly_grown h.objects [c.MakeObjectUnique (h.read p) cluster]
  · unfold InStore.ServiceNamespaceLister.Get ServiceNamespaceLister.Get
    rcases hready : m.GetReadyClusters with err | clusters
    · simp [InStore.view, hready, Except.map]
    · have hview : (InStore.view h m).GetReadyClusters = .ok clusters := hready
      simp only [hview]
      exact (getLoop_in_store c m namespace_ name h _ _).2
  · intro hcache
    constructor
    · rcases hall with ⟨err, hready, heq⟩ | ⟨clusters, ext, hready, heq, hval⟩
      · rw [heq]
        have hview : (InStore.view h m).GetReadyClusters = .error err := hready
        simp [InStore.objectsAt, Except.map, ServiceLister.List, hview]
      · rw [heq, list_all_result c (InStore.view h m) clusters hready]
        simp only [InStore.objectsAt, Except.map, ← hval hcache]
        exact congrArg Except.ok (by
          rw [show (fun p => Object.service ((Store.mk (h.objects ++ ext)).read p)) =
            Object.service ∘ (Store.mk (h.objects ++ ext)).read from rfl, ← List.map_map,
            read_range_append])
    · rcases hns with ⟨err, hready, heq⟩ | ⟨clusters, ext, hready, heq, hval⟩
      · rw [heq]
        have hview : (InStore.view h m).GetReadyClusters = .error err := hready
        simp [InStore.objectsAt, Except.map, ServiceNamespaceLister.List, hview]
      · rw [heq, list_namespaced_result c (InStore.view h m) clusters hready]
        simp only [InStore.objectsAt, Except.map, ← hval hcache]
        exact congrArg Except.ok (by
          rw [show (fun p => Object.service ((Store.mk (h.objects ++ ext)).read p)) =
            Object.service ∘ (Store.mk (h.objects ++ ext)).read from rfl, ← List.map_map,
            read_range_append])

/-- The listers of the sample registry read the cache only. -/
theorem sampleCachedRegistry_readsCacheOnly :
    InStore.ReadsCacheOnly sampleStore sampleCachedRegistry := by
  intro cluster l synced hm selector
  have hl : l = cachedListerOf [0, 1] := by
    simp only [sampleCachedRegistry] at hm
    split at hm
    · injection hm with hm
      injection hm with hm _
      injection hm with hm
      exact hm.symm
    · exact absurd hm (by simp)
  subst hl
  refine ⟨fun _ => rfl, ?_, ?_, ?_⟩
  · intro svcs hsvcs q hq
    simp only [cachedListerOf, Except.ok.injEq] at hsvcs
    subst hsvcs
    simp only [List.mem_cons, List.mem_singleton, List.not_mem_nil, or_false] at hq
    rcases hq with hq | hq <;> subst hq <;> decide
  · intro ext namespace_
    simp only [cachedListerOf, Store.read, sampleStore, List.getD_eq_getElem?_getD,
      List.cons_append, List.nil_append, Except.ok.injEq]
    apply List.filter_congr
    intro p hp
    simp only [List.mem_cons, List.mem_singleton, List.not_mem_nil, or_false] at hp
    rcases hp with hp | hp <;> subst hp <;> simp
  · intro namespace_ svcs hsvcs q hq
    simp only [cachedListerOf, Except.ok.injEq] at hsvcs
    subst hsvcs
    have hmem := List.mem_of_mem_filter hq
    simp only [List.mem_cons, List.mem_singleton, List.not_mem_nil, or_false] at hmem
    rcases hmem with hq | hq <;> subst hq <;> decide

/-- Instance of C11: listing the sample registry from the sample store leaves the cached
objects at addresses 0 and 1 as they were, returns the addresses 2 and 3 of two new cells,
and these hold the objects the list on values returns. -/
theorem C11_cached_objects_unchanged_witness :
    ((InStore.ServiceLister.mk sampleCachedRegistry).List sampleCodec labels_Everything
        sampleStore).1 =
      ⟨[svc1, svc2, { svc1 with Name := "1-Asvc1" }, { svc2 with Name := "1-Asvc2" }]⟩
    ∧ InStore.addressesOf ((InStore.ServiceLister.mk sampleCachedRegistry).List sampleCodec
        labels_Everything sampleStore).2 = [2, 3]
    ∧ InStore.CopiesOnly sampleStore
        ((InStore.ServiceLister.mk sampleCachedRegistry).List sampleCodec labels_Everything
          sampleStore).1
        (InStore.addressesOf ((InStore.ServiceLister.mk sampleCachedRegistry).List sampleCodec
          labels_Everything sampleStore).2)
    ∧ InStore.objectsAt
        ((InStore.ServiceLister.mk sampleCachedRegistry).List sampleCodec labels_Everything
          sampleStore).1
        ((InStore.ServiceLister.mk sampleCachedRegistry).List sampleCodec labels_Everything
          sampleStore).2 =
      ((ServiceLister.mk (InStore.view sampleStore sampleCachedRegistry)).List sampleCodec
        labels_Everything).result :=
  ⟨by decide, by decide,
    (C11_cached_objects_unchanged sampleCodec sampleCachedRegistry "x" "1-Asvc1"
      labels_Everything sampleStore).1,
    ((C11_cached_objects_unchanged sampleCodec sampleCachedRegistry "x" "1-Asvc1"
      labels_Everything sampleStore).2.2.2.2 sampleCachedRegistry_readsCacheOnly).1⟩

/-! ## Properties of the start of a watch -/

/-- With a field selector in the options, the loop that starts the workers does not
panic. -/
theorem startWorkers_with_field_selector (s : ServiceREST) (namespace_ : String)
    (label : Selector) (options : ListOptions) (field : FieldSelector)
    (hfield : options.FieldSelector = some field) (clusters : ClusterSlice)
    (spawned : StringSlice) :
    ∃ started, s.startWorkers namespace_ label options clusters spawned = .ok started := by
  induction clusters generalizing spawned with
  | nil => exact ⟨spawned, rfl⟩
  | cons cluster rest ih =>
    rw [ServiceREST.startWorkers]
    rcases hclient : s.federatedInformerManager.GetClusterKubeClient cluster.Name with _ | client
    · exact ih spawned
    · simp only [hfield]
      rcases hwatch : client.WatchServices namespace_
          { LabelSelector := label.String
            FieldSelector := field.String
            TimeoutSeconds := some 1200 } with e | u
      · exact ih spawned
      · exact ih (spawned ++ [cluster.Name])

/-- Without a field selector in the options, the loop that starts the workers panics as
soon as a cluster has a client, and only then. -/
theorem startWorkers_without_field_selector (s : ServiceREST) (namespace_ : String)
    (label : Selector) (options : ListOptions) (hfield : options.FieldSelector = none)
    (clusters : ClusterSlice) (spawned : StringSlice) :
    s.startWorkers namespace_ label options clusters spawned =
      if clusters.any (fun cluster =>
          (s.federatedInformerManager.GetClusterKubeClient cluster.Name).isSome)
      then .error Panic.nilPointerDereference else .ok spawned := by
  induction clusters generalizing spawned with
  | nil => rfl
  | cons cluster rest ih =>
    rw [ServiceREST.startWorkers]
    rcases hclient : s.federatedInformerManager.GetClusterKubeClient cluster.Name with _ | client
    · simp [hclient, ih spawned]
    · simp [hclient, hfield]

/-- With options that carry a field selector, `ServiceREST.Watch` returns a watch session
or an error. -/
theorem watch_with_field_selector (s : ServiceREST) (ctx : Context)
    (label : Option Selector) (field : FieldSelector) :
    (∃ session, s.Watch ctx (some { LabelSelector := label, FieldSelector := some field }) =
        WatchResult.watcher session)
    ∨ (∃ err, s.Watch ctx (some { LabelSelector := label, FieldSelector := some field }) =
        WatchResult.error err) := by
  unfold ServiceREST.Watch
  rcases hready : s.federatedInformerManager.GetReadyClusters with err | clusters
  · exact Or.inr ⟨_, rfl⟩
  · obtain ⟨started, hstarted⟩ := startWorkers_with_field_selector s (NamespaceValue ctx)
      (labelOf (some { LabelSelector := label, FieldSelector := some field }))
      { LabelSelector := label, FieldSelector := some field } field rfl clusters []
    simp only [hstarted]
    exact Or.inl ⟨_, rfl⟩

/-- With options that carry no field selector, `ServiceREST.Watch` panics exactly when the
ready clusters can be enumerated and one of them has a client. -/
theorem watch_without_field_selector (s : ServiceREST) (ctx : Context)
    (label : Option Selector) :
    s.Watch ctx (some { LabelSelector := label, FieldSelector := none }) =
        WatchResult.panic Panic.nilPointerDereference ↔
      ∃ clusters, s.federatedInformerManager.GetReadyClusters = .ok clusters
        ∧ ∃ cluster ∈ clusters,
            (s.federatedInformerManager.GetClusterKubeClient cluster.Name).isSome = true := by
  unfold ServiceREST.Watch
  rcases hready : s.federatedInformerManager.GetReadyClusters with err | clusters
  · simp
  · simp only [startWorkers_without_field_selector s (NamespaceValue ctx)
      (labelOf (some { LabelSelector := label, FieldSelector := none }))
      { LabelSelector := label, FieldSelector := none } rfl clusters []]
    by_cases hany : clusters.any (fun cluster =>
        (s.federatedInformerManager.GetClusterKubeClient cluster.Name).isSome) = true
    · simp only [hany, if_true, true_iff]
      rw [List.any_eq_true] at hany
      exact ⟨clusters, rfl, hany⟩
    · simp only [hany, if_false]
      constructor
      · intro h
        exact absurd h (by simp)
      · rintro ⟨clusters2, heq, hex⟩
        injection heq with heq
        subst heq
        exact absurd (List.any_eq_true.mpr hex) hany

/-- C12 fails on the code: `ServiceREST.Watch` panics with a nil dereference when the list
options are absent (line 161 reads `options.FieldSelector`), whatever the registry, and
when the options carry no field selector and a ready cluster has a client (line 183 calls
`options.FieldSelector.String()`), with or without a label selector; `ServiceREST.List`
on the same registry and absent options returns a list. -/
theorem C12_watch_panics_without_field_selector :
    (∀ (s : ServiceREST) (ctx : Context),
      s.Watch ctx none = WatchResult.panic Panic.nilPointerDereference)
    ∧ (restOver sampleCodec watchRegistry).Watch ⟨"x"⟩
        (some { LabelSelector := none, FieldSelector := none }) =
          WatchResult.panic Panic.nilPointerDereference
    ∧ (restOver sampleCodec watchRegistry).Watch ⟨"x"⟩
        (some { LabelSelector := some labels_Everything, FieldSelector := none }) =
          WatchResult.panic Panic.nilPointerDereference
    ∧ (restOver sampleCodec watchRegistry).List ⟨"x"⟩ none = .ok { Items := [] }
    ∧ (restOver sampleCodec watchRegistry).List ⟨"x"⟩
        (some { LabelSelector := none, FieldSelector := none }) = .ok { Items := [] } :=
  ⟨fun _ _ => rfl, rfl, rfl, rfl, rfl⟩

/-! ## Properties of the classification of annotations and labels -/

/-- What the loop of `classifyStringMap` leaves in the two maps, over the entries still to
visit. -/
theorem foldl_classifyEntry_lookup (matcher : String → Bool × Bool)
    (l : List (Sigma fun _ : String => String)) (hl : l.NodupKeys)
    (acc : StringMap × StringMap) (key : String) :
    (l.foldl (fun r a => classifyEntry matcher r a.1 a.2) acc).1.lookup key =
        (if (matcher key).1 = true ∧ key ∈ l.keys then l.dlookup key else acc.1.lookup key)
    ∧ (l.foldl (fun r a => classifyEntry matcher r a.1 a.2) acc).2.lookup key =
        (if (matcher key).2 = true ∧ key ∈ l.keys then l.dlookup key else acc.2.lookup key) := by
  induction l generalizing acc with
  | nil => simp
  | cons e rest ih =>
    obtain ⟨a, b⟩ := e
    rw [List.nodupKeys_cons] at hl
    obtain ⟨hnotin, hrest⟩ := hl
    have hnotin2 : a ∉ rest.keys := hnotin
    rw [List.foldl_cons]
    obtain ⟨ih1, ih2⟩ := ih hrest (classifyEntry matcher acc a b)
    rw [ih1, ih2]
    by_cases hk : key = a
    · subst hk
      simp only [hnotin2, and_false, if_false, List.keys_cons, List.mem_cons, true_or, and_true,
        List.dlookup_cons_eq, classifyEntry]
      constructor
      · by_cases h1 : (matcher key).1 = true
        · simp [h1, AList.lookup_insert]
        · simp [h1]
      · by_cases h2 : (matcher key).2 = true
        · simp [h2, AList.lookup_insert]
        · simp [h2]
    · have hne : key ≠ (Sigma.mk a b : Sigma fun _ : String => String).1 := hk
      simp only [List.keys_cons, List.mem_cons, hk, false_or, List.dlookup_cons_ne _ _ hne,
        classifyEntry]
      constructor
      · by_cases h1 : (matcher a).1 = true
        · simp [h1, AList.lookup_insert_ne hk]
        · simp [h1]
      · by_cases h2 : (matcher a).2 = true
        · simp [h2, AList.lookup_insert_ne hk]
        · simp [h2]

/-- The two maps returned by `classifyStringMap`: the federated map holds the source
entries whose key the matcher sends to the federated map, the template map those it sends
to the template map. -/
theorem classifyStringMap_lookup (src : StringMap) (matcher : String → Bool × Bool)
    (key : String) :
    (classifyStringMap src matcher).1.lookup key =
        (if (matcher key).1 = true then src.lookup key else none)
    ∧ (classifyStringMap src matcher).2.lookup key =
        (if (matcher key).2 = true then src.lookup key else none) := by
  obtain ⟨h1, h2⟩ := foldl_classifyEntry_lookup matcher src.entries src.nodupKeys (∅, ∅) key
  unfold classifyStringMap AList.foldl
  rw [h1, h2]
  have hnone : key ∉ src.entries.keys → src.lookup key = none := fun h =>
    AList.lookup_eq_none.mpr h
  have hlook : src.entries.dlookup key = src.lookup key := rfl
  simp only [AList.lookup_empty, hlook]
  constructor
  · by_cases hm : (matcher key).1 = true <;> by_cases hk : key ∈ src.entries.keys <;>
      simp [hm, hk, hnone]
  · by_cases hm : (matcher key).2 = true <;> by_cases hk : key ∈ src.entries.keys <;>
      simp [hm, hk, hnone]

/-- The federated map returned by `classifyAnnotations`. -/
theorem classifyAnnotations_federated (k : Keys) (src : StringMap) (key : String) :
    (classifyAnnotations k src).1.lookup key =
      if key = k.common_FederatedObjectAnnotation then some "1"
      else if key ∉ ignoredAnnotationSet k ∧ key ∈ federatedAnnotationSet k then src.lookup key
      else none := by
  unfold classifyAnnotations
  by_cases hk : key = k.common_FederatedObjectAnnotation
  · subst hk
    simp [AList.lookup_insert]
  · simp only [AList.lookup_insert_ne hk, hk, if_false,
      (classifyStringMap_lookup src ( classifyAnnotation k) key).1]
    unfold classifyAnnotation Has
    by_cases hi : key ∈ ignoredAnnotationSet k <;> by_cases hf : key ∈ federatedAnnotationSet k <;>
      simp [hi, hf]

/-- The template map returned by `classifyAnnotations`. -/
theorem classifyAnnotations_template (k : Keys) (src : StringMap) (key : String) :
    (classifyAnnotations k src).2.lookup key =
      if key ∉ ignoredAnnotationSet k ∧ key ∉ federatedAnnotationSet k then src.lookup key
      else none := by
  unfold classifyAnnotations
  simp only [(classifyStringMap_lookup src ( classifyAnnotation k) key).2]
  unfold classifyAnnotation Has
  by_cases hi : key ∈ ignoredAnnotationSet k <;> by_cases hf : key ∈ federatedAnnotationSet k <;>
    simp [hi, hf]

/-- The two maps returned by `classifyLabels`. -/
theorem classifyLabels_lookup (k : Keys) (src : StringMap) (key : String) :
    (classifyLabels k src).1.lookup key =
        (if key ∈ federatedLabelSet k then src.lookup key else none)
    ∧ (classifyLabels k src).2.lookup key =
        (if key ∈ federatedLabelSet k then none else src.lookup key) := by
  unfold classifyLabels
  rw [(classifyStringMap_lookup src (classifyLabel k) key).1,
    (classifyStringMap_lookup src (classifyLabel k) key).2]
  unfold classifyLabel Has
  by_cases hf : key ∈ federatedLabelSet k <;> simp [hf]

/-- A key is in a map exactly when its lookup finds a value. -/
theorem mem_iff_lookup (m : StringMap) (key : String) :
    key ∈ m ↔ ∃ value, m.lookup key = some value := by
  rw [← AList.lookup_isSome, Option.isSome_iff_exists]

/-- The claim C13 as stated fails: with the sample keys, a source carrying the marker
annotation has the marker in the template map (with its source value) and in the federated
map (with value "1"), so the key sets are not disjoint; and for no values of the keys does
the claim hold for every source map. -/
theorem C13_marker_in_both_maps :
    sampleAnnotations.lookup "kubeadmiral.io/federated-object" = some "0"
    ∧ (classifyAnnotations sampleKeys sampleAnnotations).1.lookup
        "kubeadmiral.io/federated-object" = some "1"
    ∧ (classifyAnnotations sampleKeys sampleAnnotations).2.lookup
        "kubeadmiral.io/federated-object" = some "0"
    ∧ ¬ SplitsAnnotations sampleKeys sampleAnnotations
        (classifyAnnotations sampleKeys sampleAnnotations).1
        (classifyAnnotations sampleKeys sampleAnnotations).2
    ∧ ¬ ∃ k : Keys, ∀ src : StringMap,
        SplitsAnnotations k src (classifyAnnotations k src).1 (classifyAnnotations k src).2 := by
  refine ⟨by decide, by decide, by decide, ?_, ?_⟩
  · intro h
    exact h.1 "kubeadmiral.io/federated-object" ⟨by decide, by decide⟩
  · rintro ⟨k, hall⟩
    obtain ⟨_, hignored, hfederated, htemplate, _, _, _⟩ :=
      hall (AList.singleton k.common_FederatedObjectAnnotation "0")
    have hsrc : k.common_FederatedObjectAnnotation ∈
        (AList.singleton k.common_FederatedObjectAnnotation "0" : StringMap) := by
      rw [mem_iff_lookup]
      exact ⟨"0", by simp [AList.singleton, AList.lookup]⟩
    have hlook := classifyAnnotations_federated k
      (AList.singleton k.common_FederatedObjectAnnotation "0") k.common_FederatedObjectAnnotation
    simp only [if_true] at hlook
    have hmem : k.common_FederatedObjectAnnotation ∈ (classifyAnnotations k
        (AList.singleton k.common_FederatedObjectAnnotation "0")).1 :=
      (mem_iff_lookup _ _).mpr ⟨"1", hlook⟩
    by_cases hi : k.common_FederatedObjectAnnotation ∈ ignoredAnnotationSet k
    · exact (hignored _ hsrc hi).1 hmem
    · by_cases hf : k.common_FederatedObjectAnnotation ∈ federatedAnnotationSet k
      · have h := (hfederated _ hsrc hi hf).1
        rw [hlook] at h
        simp [AList.singleton, AList.lookup] at h
      · exact (htemplate _ hsrc hi hf).2 hmem

/-- C13 (amended): for every source annotation map, `classifyAnnotations` returns a
federated map and a template map such that, for every key other than the federated-object
marker, the key is in at most one of the two maps; a source key in the ignored set is not
in the template map and, unless it is the marker, not in the federated map; a source key
in the federated set (and not ignored) is not in the template map and, unless it is the
marker, is in the federated map with its source value; every other source key is in the
template map with its source value and, unless it is the marker, not in the federated map;
every entry of the template map is a source entry, every entry of the federated map is a
source entry or the marker with value "1", and the federated map always holds the marker
with value "1". For every source label map, `classifyLabels` returns the source entries
whose key is in the federated label set and the other source entries, two disjoint maps
whose union is the source. -/
theorem C13_classification_partitions (k : Keys) (annotations labels : StringMap) :
    (∀ key, key ≠ k.common_FederatedObjectAnnotation →
      ¬ (key ∈ (classifyAnnotations k annotations).1 ∧ key ∈ (classifyAnnotations k annotations).2))
    ∧ (∀ key ∈ annotations, key ∈ ignoredAnnotationSet k →
        key ∉ (classifyAnnotations k annotations).2
        ∧ (key ≠ k.common_FederatedObjectAnnotation → key ∉ (classifyAnnotations k annotations).1))
    ∧ (∀ key ∈ annotations, key ∉ ignoredAnnotationSet k → key ∈ federatedAnnotationSet k →
        key ∉ (classifyAnnotations k annotations).2
        ∧ (key ≠ k.common_FederatedObjectAnnotation →
            (classifyAnnotations k annotations).1.lookup key = annotations.lookup key))
    ∧ (∀ key ∈ annotations, key ∉ ignoredAnnotationSet k → key ∉ federatedAnnotationSet k →
        (classifyAnnotations k annotations).2.lookup key = annotations.lookup key
        ∧ (key ≠ k.common_FederatedObjectAnnotation → key ∉ (classifyAnnotations k annotations).1))
    ∧ (∀ key value, (classifyAnnotations k annotations).2.lookup key = some value →
        annotations.lookup key = some value)
    ∧ (∀ key value, (classifyAnnotations k annotations).1.lookup key = some value →
        annotations.lookup key = some value
        ∨ (key = k.common_FederatedObjectAnnotation ∧ value = "1"))
    ∧ (classifyAnnotations k annotations).1.lookup k.common_FederatedObjectAnnotation = some "1"
    ∧ SplitsLabels k labels (classifyLabels k labels).1 (classifyLabels k labels).2 := by
  have hfed := classifyAnnotations_federated k annotations
  have htmpl := classifyAnnotations_template k annotations
  refine ⟨?_, ?_, ?_, ?_, ?_, ?_, ?_, ?_⟩
  · intro key hk ⟨h1, h2⟩
    rw [mem_iff_lookup] at h1 h2
    obtain ⟨v1, h1⟩ := h1
    obtain ⟨v2, h2⟩ := h2
    rw [hfed key] at h1
    rw [htmpl key] at h2
    simp only [hk, if_false] at h1
    by_cases hi : key ∈ ignoredAnnotationSet k <;> by_cases hf : key ∈ federatedAnnotationSet k <;>
      simp [hi, hf] at h1 h2
  · intro key _ hi
    constructor
    · rw [mem_iff_lookup, htmpl key]
      simp [hi]
    · intro hk
      rw [mem_iff_lookup, hfed key]
      simp [hk, hi]
  · intro key _ hi hf
    constructor
    · rw [mem_iff_lookup, htmpl key]
      simp [hi, hf]
    · intro hk
      rw [hfed key]
      simp [hk, hi, hf]
  · intro key _ hi hf
    constructor
    · rw [htmpl key]
      simp [hi, hf]
    · intro hk
      rw [mem_iff_lookup, hfed key]
      simp [hk, hi, hf]
  · intro key value h
    rw [htmpl key] at h
    by_cases hc : key ∉ ignoredAnnotationSet k ∧ key ∉ federatedAnnotationSet k
    · rw [if_pos hc] at h
      exact h
    · rw [if_neg hc] at h
      exact absurd h (by simp)
  · intro key value h
    rw [hfed key] at h
    by_cases hk : key = k.common_FederatedObjectAnnotation
    · rw [if_pos hk] at h
      injection h with h
      exact Or.inr ⟨hk, h.symm⟩
    · rw [if_neg hk] at h
      by_cases hc : key ∉ ignoredAnnotationSet k ∧ key ∈ federatedAnnotationSet k
      · rw [if_pos hc] at h
        exact Or.inl h
      · rw [if_neg hc] at h
        exact absurd h (by simp)
  · rw [hfed]
    simp
  · have hl := classifyLabels_lookup k labels
    refine ⟨?_, fun key => (hl key).1, fun key => (hl key).2, ?_, ?_⟩
    · intro key ⟨h1, h2⟩
      rw [mem_iff_lookup] at h1 h2
      obtain ⟨v1, h1⟩ := h1
      obtain ⟨v2, h2⟩ := h2
      rw [(hl key).1] at h1
      rw [(hl key).2] at h2
      by_cases hf : key ∈ federatedLabelSet k <;> simp [hf] at h1 h2
    · intro key
      simp only [mem_iff_lookup, (hl key).1, (hl key).2]
      by_cases hf : key ∈ federatedLabelSet k <;> simp [hf]
    · intro key value
      rw [(hl key).1, (hl key).2]
      by_cases hf : key ∈ federatedLabelSet k <;> simp [hf]

/-- Instance of C13: of the sample annotations, the scheduling mode goes to the federated
map, the replica retention nowhere, the annotation of the user to the template map; of the
sample labels, the policy name goes to the federated map and the label of the user to the
template map. -/
theorem C13_classification_partitions_witness :
    (classifyAnnotations sampleKeys sampleAnnotations).1.lookup "kubeadmiral.io/scheduling-mode" =
        some "Divide"
    ∧ "kubeadmiral.io/scheduling-mode" ∉ (classifyAnnotations sampleKeys sampleAnnotations).2
    ∧ "kubeadmiral.io/retain-replicas" ∉ (classifyAnnotations sampleKeys sampleAnnotations).1
    ∧ "kubeadmiral.io/retain-replicas" ∉ (classifyAnnotations sampleKeys sampleAnnotations).2
    ∧ (classifyAnnotations sampleKeys sampleAnnotations).2.lookup "example.com/team" = some "a"
    ∧ "example.com/team" ∉ (classifyAnnotations sampleKeys sampleAnnotations).1
    ∧ (classifyLabels sampleKeys sampleLabels).1.lookup "kubeadmiral.io/propagation-policy-name" =
        some "pp"
    ∧ (classifyLabels sampleKeys sampleLabels).2.lookup "app" = some "web" :=
  ⟨((C13_classification_partitions sampleKeys sampleAnnotations sampleLabels).2.2.1
      "kubeadmiral.io/scheduling-mode" (by decide) (by decide) (by decide)).2 (by decide),
    ((C13_classification_partitions sampleKeys sampleAnnotations sampleLabels).2.2.1
      "kubeadmiral.io/scheduling-mode" (by decide) (by decide) (by decide)).1,
    ((C13_classification_partitions sampleKeys sampleAnnotations sampleLabels).2.1
      "kubeadmiral.io/retain-replicas" (by decide) (by decide)).2 (by decide),
    ((C13_classification_partitions sampleKeys sampleAnnotations sampleLabels).2.1
      "kubeadmiral.io/retain-replicas" (by decide) (by decide)).1,
    ((C13_classification_partitions sampleKeys sampleAnnotations sampleLabels).2.2.2.1
      "example.com/team" (by decide) (by decide) (by decide)).1,
    ((C13_classification_partitions sampleKeys sampleAnnotations sampleLabels).2.2.2.1
      "example.com/team" (by decide) (by decide) (by decide)).2 (by decide),
    ((C13_classification_partitions sampleKeys sampleAnnotations
      sampleLabels).2.2.2.2.2.2.2.2.1 "kubeadmiral.io/propagation-policy-name").trans (by decide),
    ((C13_classification_partitions sampleKeys sampleAnnotations
      sampleLabels).2.2.2.2.2.2.2.2.2.1 "app").trans (by decide)⟩

end KubeAdmiral
